import Mathlib

set_option autoImplicit false
set_option maxRecDepth 4000

namespace Ignitia

/-!
Shallow embedding of the question-generation response pipeline of
`src/server/src/api/v1/services/groq.service.js` (class `GroqService`):
the normalizer `processQuestions` (with `validateMCQOptions` and
`getDefaultMarks`), the template fallback generator
`generateMeaningfulQuestion`, the distribution reconciler
`ensureQuestionCount`, and the JSON extraction front end
`cleanJsonResponse` together with the first direct `JSON.parse` attempt of
`generateQuestions`.

Modelling conventions:
* JavaScript objects holding question records become structures with
  `Option` fields; `none` models a missing/`undefined` field.
* Marks are JavaScript numbers in the source; they are modelled as
  `Option Nat`, with `none` standing for `NaN` (as produced by
  `baseMarks[type] * m` on an unknown `type`).  The `x || y` defaulting on
  numbers treats `0` (falsy) like a missing value, as in the source.
* String truthiness (`s || d` with `""` falsy) is modelled explicitly.
* Console logging is side-effect free here; the warning messages of the
  reconciler's final verification pass are reified by
  `distributionWarnings`.
-/

/-- A raw question record as recovered from the model response
(the input shape read by `processQuestions`). -/
structure RawQuestion where
  text : Option String := none
  type : Option String := none
  difficulty : Option String := none
  marks : Option Nat := none
  topic : Option String := none
  bloomsTaxonomy : Option String := none
  explanation : Option String := none
  options : Option (List String) := none
  correctAnswer : Option String := none
  subject : Option String := none
deriving Repr, DecidableEq

/-- A question record as produced by the pipeline. -/
structure Question where
  text : String
  type : String
  difficulty : String
  marks : Option Nat
  topic : String
  bloomsTaxonomy : Option String := none
  explanation : Option String := none
  options : Option (List String) := none
  correctAnswer : Option String := none
  subject : Option String := none
deriving Repr, DecidableEq

/-- One requested bucket of the caller's `questionDistribution`. -/
structure QDist where
  type : String
  difficulty : String
  count : Nat
  marks : Option Nat
deriving Repr, DecidableEq

/-- JavaScript `x || d` on an optional string (both `undefined` and `""` are
falsy). -/
def strOr (v : Option String) (d : String) : String :=
  match v with
  | some s => if s = "" then d else s
  | none => d

/-- JavaScript `x || undefined` on an optional string field. -/
def strOrUndef (v : Option String) : Option String :=
  match v with
  | some s => if s = "" then none else some s
  | none => none

/-- Truthiness of an optional string (`undefined` and `""` are falsy). -/
def subjTruthy (s : Option String) : Bool :=
  match s with
  | some v => v != ""
  | none => false

/-- Base marks table of `getDefaultMarks`; lookup of an unknown or missing
type yields `none` (the source's `baseMarks[type]` is `undefined` there, and
the subsequent multiplication produces `NaN`). -/
def baseMarks (type? : Option String) : Option Nat :=
  match type? with
  | some t =>
    if t = "mcq" then some 2
    else if t = "short" then some 4
    else if t = "long" then some 8
    else if t = "diagram" then some 6
    else if t = "code" then some 7
    else if t = "hots" then some 10
    else if t = "case_study" then some 12
    else none
  | none => none

/-- Difficulty multiplier of `getDefaultMarks`, counted in halves
(easy ×1 ↦ 2, medium ×1.5 ↦ 3, hard ×2 ↦ 4); the source's
`difficultyMultiplier[difficulty] || 1` fallback for an unknown or missing
difficulty ↦ 2 (that is, ×1). -/
def multiplierHalves (difficulty? : Option String) : Nat :=
  match difficulty? with
  | some d =>
    if d = "easy" then 2
    else if d = "medium" then 3
    else if d = "hard" then 4
    else 2
  | none => 2

/-- `getDefaultMarks(type, difficulty)`:
`Math.round(baseMarks[type] * (difficultyMultiplier[difficulty] || 1))`.
With the multiplier in halves, `(b * h + 1) / 2` in natural division is
exactly `Math.round` of `b * h / 2` (a half rounds up). -/
def getDefaultMarks (type? difficulty? : Option String) : Option Nat :=
  (baseMarks type?).map (fun b => (b * multiplierHalves difficulty? + 1) / 2)

/-- The `while (validOptions.length < 4)` padding loop of
`validateMCQOptions`, with fuel 4 (each pass appends one option, so four
passes always reach length 4). `String.fromCharCode(65 + length)` yields the
labels `A`, `B`, `C`, `D`. -/
def padOptionsGo : Nat → List String → List String
  | 0, l => l
  | f + 1, l =>
    if l.length < 4 then
      padOptionsGo f (l ++ ["Option " ++ String.singleton (Char.ofNat (65 + l.length))])
    else l

/-- `validateMCQOptions`: coerce the options to exactly 4 entries (start from
`[]` when the field is missing, pad with generic labels when fewer than 4,
truncate when more than 4). -/
def validateMCQOptions (options : Option (List String)) : List String :=
  match options with
  | none => (padOptionsGo 4 []).take 4
  | some l =>
    if l.length < 4 then (padOptionsGo 4 l).take 4
    else if 4 < l.length then l.take 4
    else l

/-- `question.marks || this.getDefaultMarks(question.type,
question.difficulty)`: the marks field of a processed record.  Note that the
default-marks computation receives the *raw* `question.type` and
`question.difficulty`, not the defaulted ones. -/
def defaultedMarks (question : RawQuestion) : Option Nat :=
  match question.marks with
  | some m => if m = 0 then getDefaultMarks question.type question.difficulty else some m
  | none => getDefaultMarks question.type question.difficulty

/-- The `correctAnswer` selection of `processQuestions` for an mcq record:
keep a truthy member of the coerced options, else fall back to
`options[0]`. -/
def processCA (question : RawQuestion) (opts : List String) : Option String :=
  match question.correctAnswer with
  | some c => if (c != "") && opts.contains c then some c else opts.get? 0
  | none => opts.get? 0

/-- The per-record body of `processQuestions` (the callback of its `map`). -/
def processOne (question : RawQuestion) (topic : String) : Question :=
  let ty := strOr question.type "mcq"
  let base : Question :=
    { text := strOr question.text "No question text provided"
      type := ty
      difficulty := strOr question.difficulty "medium"
      marks := defaultedMarks question
      topic := strOr question.topic topic
      bloomsTaxonomy := strOrUndef question.bloomsTaxonomy
      explanation := strOrUndef question.explanation
      options := none
      correctAnswer := none
      subject := none }
  if ty = "mcq" then
    let opts := validateMCQOptions question.options
    { base with options := some opts, correctAnswer := processCA question opts }
  else base

/-- `processQuestions(questions, topic)`. -/
def processQuestions (questions : List RawQuestion) (topic : String) : List Question :=
  questions.map (fun question => processOne question topic)

/-- Helper for `String.prototype.includes`: substring test on char lists. -/
def strContainsGo (pat : List Char) : List Char → Bool
  | [] => pat.isEmpty
  | c :: r => pat.isPrefixOf (c :: r) || strContainsGo pat r

/-- JavaScript `s.includes(pat)`. -/
def strContains (s pat : String) : Bool := strContainsGo pat.data s.data

/-- JavaScript `subject && subject.toLowerCase().includes(kw)`. -/
def subjHas (subject : Option String) (kw : String) : Bool :=
  match subject with
  | some s => (s != "") && strContains s.toLower kw
  | none => false

/-- The general template bank `templates[type][difficulty]` of
`generateMeaningfulQuestion` (types mcq/short/long only). -/
def generalTemplates (ty diff : String) : Option (List String) :=
  if ty = "mcq" then
    if diff = "easy" then some
      ["Which of the following statements is correct?",
       "What is the primary concept in this field of study?",
       "Which principle best explains this basic phenomenon?",
       "Which of these is a fundamental fact in this subject area?"]
    else if diff = "medium" then some
      ["How do these principles impact related systems?",
       "What would happen if these concepts were applied to a novel situation?",
       "Which application demonstrates the practical utility of this theory?",
       "When analyzing this problem, which approach yields the most accurate results?"]
    else if diff = "hard" then some
      ["Which advanced theory best explains these complex relationships?",
       "What are the far-reaching implications of these principles in this domain?",
       "How would you solve this multi-step problem using appropriate methods?",
       "What is the relationship between these advanced theoretical concepts?"]
    else none
  else if ty = "short" then
    if diff = "easy" then some
      ["Explain this principle in your own words.",
       "What are the key concepts in this field?",
       "Describe the importance of this theory in modern applications.",
       "Outline the basic framework of this system."]
    else if diff = "medium" then some
      ["Compare and contrast these related theoretical approaches.",
       "Explain how this process affects interconnected systems.",
       "Analyze the application of these principles in real-world scenarios.",
       "Describe the evolution of understanding in this field."]
    else if diff = "hard" then some
      ["Critically evaluate the current theoretical understanding in this area.",
       "Analyze how these principles interact with other complex systems.",
       "Explain the limitations of current approaches to this problem.",
       "Evaluate the significance of recent developments in this field."]
    else none
  else if ty = "long" then
    if diff = "easy" then some
      ["Describe in detail the key components and processes of this system.",
       "Explain the historical development and current understanding of this theory.",
       "Outline these fundamental principles with relevant examples.",
       "Describe how these concepts are applied in practical situations."]
    else if diff = "medium" then some
      ["Discuss the significance and applications of these principles in modern contexts.",
       "Analyze the relationship between these theories and related concepts.",
       "Explain how this field has evolved and its current state of development.",
       "Evaluate the strengths and weaknesses of different approaches to this problem."]
    else if diff = "hard" then some
      ["Critically analyze these theoretical foundations and propose improvements.",
       "Synthesize multiple perspectives on this problem and develop your own framework.",
       "Evaluate competing theories and argue for the most convincing approach.",
       "Analyze this complex scenario and develop a comprehensive solution."]
    else none
  else none

/-- Mathematics bank of `subjectTemplates` (mcq, short and long). -/
def mathBank (ty diff : String) : Option (List String) :=
  if ty = "mcq" then
    if diff = "easy" then some
      ["Find the solution to this equation: If x + 5 = 12, what is the value of x?",
       "What is the area of a rectangle with length 8 units and width 6 units?",
       "Which of the following is the correct formula for the area of a circle?",
       "If a number is divisible by both 2 and 3, it is also divisible by what number?"]
    else if diff = "medium" then some
      ["A quadratic equation has roots at x = 2 and x = -3. What is the equation in standard form?",
       "In a right-angled triangle, if one angle is 30°, what is the other acute angle?",
       "Which trigonometric function equals the ratio of the opposite side to the hypotenuse?",
       "If f(x) = 2x² + 3x - 5, what is the value of f(2)?"]
    else if diff = "hard" then some
      ["Which method would you use to determine the convergence of an infinite series?",
       "In a coordinate geometry problem involving a circle, what is the relationship between the center, radius, and a point on the circle?",
       "Given a polynomial function, how would you find all its roots if one root is already known?",
       "What theorem helps determine if a given matrix is diagonalizable?"]
    else none
  else if ty = "short" then
    if diff = "easy" then some
      ["Explain the difference between permutation and combination with examples.",
       "Describe the properties of parallel lines in Euclidean geometry.",
       "Explain what makes a quadrilateral a parallelogram.",
       "Describe the relationship between the radius and diameter of a circle."]
    else if diff = "medium" then some
      ["Explain how the quadratic formula is derived from the standard form of a quadratic equation.",
       "Describe the relationship between differentiation and integration in calculus.",
       "Explain how to use the sine and cosine rules to solve triangles.",
       "Describe the properties of a normal distribution in statistics."]
    else if diff = "hard" then some
      ["Explain the fundamental theorem of calculus and its significance in mathematics.",
       "Describe how eigenvalues and eigenvectors are used in linear transformations.",
       "Explain the concept of statistical hypothesis testing with examples.",
       "Discuss the importance of number theory in modern cryptography."]
    else none
  else if ty = "long" then
    if diff = "easy" then some
      ["Explain the concept of factorization of algebraic expressions with examples.",
       "Describe the properties and applications of different types of quadrilaterals.",
       "Explain the concept of linear equations and methods to solve them.",
       "Describe the properties of triangles and their significance in geometry."]
    else if diff = "medium" then some
      ["Explain the concept of functions, their types, and applications with relevant examples.",
       "Describe the methods for solving systems of linear equations and their applications.",
       "Explain the concept of probability, its laws, and applications with examples.",
       "Describe the properties of geometric sequences and series with applications."]
    else if diff = "hard" then some
      ["Explain differential calculus, its principles, and applications in real-world problems.",
       "Describe the concepts of vectors, vector spaces, and their applications in physics and engineering.",
       "Explain the principles of statistical inference and their applications in data analysis.",
       "Describe the concepts of complex numbers, their geometric interpretation, and applications."]
    else none
  else none

/-- Physics bank of `subjectTemplates` (mcq and short). -/
def physicsBank (ty diff : String) : Option (List String) :=
  if ty = "mcq" then
    if diff = "easy" then some
      ["What is the SI unit of force?",
       "Which of the following is the formula for calculating work done?",
       "What type of energy does a moving object possess?",
       "Which physical quantity remains constant in an isolated system according to conservation laws?"]
    else if diff = "medium" then some
      ["A 2 kg object moving at 5 m/s collides with a stationary object. What principle determines the outcome?",
       "Which wave phenomenon explains the bending of light as it passes from air to water?",
       "In an electrical circuit, what determines the current according to Ohm\x27s law?",
       "What happens to the wavelength of light when it passes through a medium with higher refractive index?"]
    else if diff = "hard" then some
      ["Which quantum principle describes the impossibility of simultaneously measuring position and momentum precisely?",
       "What is the relativistic effect on mass as an object approaches the speed of light?",
       "In thermodynamics, which law relates to the increase of entropy in isolated systems?",
       "How does the strong nuclear force vary with distance between nucleons?"]
    else none
  else if ty = "short" then
    if diff = "easy" then some
      ["Explain Newton\x27s three laws of motion.",
       "Describe the difference between scalar and vector quantities with examples.",
       "Explain the concept of potential energy.",
       "Describe how sound waves propagate through different media."]
    else if diff = "medium" then some
      ["Explain the principle of conservation of energy with examples.",
       "Describe the electromagnetic spectrum and its applications.",
       "Explain how a simple electric motor works.",
       "Describe the relationship between force, pressure and area."]
    else if diff = "hard" then some
      ["Explain the concept of wave-particle duality in quantum mechanics.",
       "Describe Einstein\x27s special theory of relativity and its implications.",
       "Explain the principles of nuclear fission and fusion.",
       "Describe the quantum mechanical model of the atom."]
    else none
  else none

/-- Chemistry bank of `subjectTemplates` (mcq only). -/
def chemistryBank (ty diff : String) : Option (List String) :=
  if ty = "mcq" then
    if diff = "easy" then some
      ["Which of the following is an example of a chemical change?",
       "What type of bond forms between two non-metal atoms?",
       "Which element has the electronic configuration 2,8,8,1?",
       "What is the pH of a neutral solution at 25°C?"]
    else if diff = "medium" then some
      ["Which orbital has the quantum numbers n=3, l=1?",
       "What type of isomerism is exhibited by butane and 2-methylpropane?",
       "Which functional group characterizes alcohols?",
       "What happens to the rate of reaction when a catalyst is added?"]
    else if diff = "hard" then some
      ["Which principle explains why electron affinity generally decreases down a group in the periodic table?",
       "What is the hybridization of carbon in acetylene (C₂H₂)?",
       "Which mechanism best explains the reaction between alkenes and hydrogen halides?",
       "What is the relationship between Gibbs free energy and spontaneity of a reaction?"]
    else none
  else none

/-- Computer-science bank of `subjectTemplates` (mcq and short). -/
def computerBank (ty diff : String) : Option (List String) :=
  if ty = "mcq" then
    if diff = "easy" then some
      ["Which data structure operates on a First-In-First-Out (FIFO) principle?",
       "What is the purpose of a constructor in object-oriented programming?",
       "Which sorting algorithm has the best average time complexity?",
       "What does HTML stand for in web development?"]
    else if diff = "medium" then some
      ["What is the time complexity of binary search?",
       "Which design pattern would you use to create objects without specifying their concrete classes?",
       "What problem does normalization solve in database design?",
       "Which networking protocol is connectionless?"]
    else if diff = "hard" then some
      ["Which algorithm would be most efficient for finding the shortest path in a weighted graph?",
       "What is the significance of the CAP theorem in distributed systems?",
       "Which concurrency control mechanism would best prevent deadlock in a multi-threaded application?",
       "How does public key cryptography ensure secure communication?"]
    else none
  else if ty = "short" then
    if diff = "easy" then some
      ["Explain the difference between a stack and a queue with examples.",
       "Describe the principles of object-oriented programming.",
       "Explain how a binary search algorithm works.",
       "Describe the client-server architecture in networking."]
    else if diff = "medium" then some
      ["Explain the concept of recursion and provide an example.",
       "Describe the MVC architectural pattern and its benefits.",
       "Explain the principles of database normalization.",
       "Describe how virtual memory works in operating systems."]
    else if diff = "hard" then some
      ["Explain the concept of polymorphism and its implementation in programming.",
       "Describe the principles and applications of machine learning algorithms.",
       "Explain how blockchain technology ensures data integrity and security.",
       "Describe the principles of concurrent programming and thread synchronization."]
    else none
  else none

/-- Biology bank of `subjectTemplates` (mcq only). -/
def biologyBank (ty diff : String) : Option (List String) :=
  if ty = "mcq" then
    if diff = "easy" then some
      ["Which organelle is known as the powerhouse of the cell?",
       "What is the main function of the respiratory system?",
       "Which process converts glucose to pyruvate?",
       "What type of tissue connects bones to muscles?"]
    else if diff = "medium" then some
      ["Which phase of meiosis involves crossing over?",
       "What is the role of tRNA in protein synthesis?",
       "Which hormone regulates blood glucose levels?",
       "What is the function of the Golgi apparatus in a cell?"]
    else if diff = "hard" then some
      ["Which principle best explains the non-Mendelian inheritance pattern observed in this genetic disorder?",
       "What mechanism regulates gene expression in prokaryotes?",
       "How does feedback inhibition control metabolic pathways?",
       "What is the relationship between natural selection and genetic drift in evolutionary processes?"]
    else none
  else none

/-- History bank of `subjectTemplates` (mcq only). -/
def historyBank (ty diff : String) : Option (List String) :=
  if ty = "mcq" then
    if diff = "easy" then some
      ["When did World War II end?",
       "Who was the first President of the United States?",
       "Which civilization built the pyramids at Giza?",
       "What document established the United Nations?"]
    else if diff = "medium" then some
      ["Which economic system emerged during the Industrial Revolution?",
       "What was the main cause of the French Revolution?",
       "Which treaty ended World War I?",
       "What impact did the printing press have on European society?"]
    else if diff = "hard" then some
      ["How did cold war ideologies influence post-colonial movements in developing nations?",
       "Which philosophical movement most influenced the framers of the U.S. Constitution?",
       "What factors led to the collapse of the Roman Empire?",
       "How did geographic factors influence the development of ancient civilizations?"]
    else none
  else none

/-- Language/literature bank of `subjectTemplates` (mcq only). -/
def languageBank (ty diff : String) : Option (List String) :=
  if ty = "mcq" then
    if diff = "easy" then some
      ["Which of these is an example of a simile?",
       "What is the main function of a verb in a sentence?",
       "Which literary movement emphasized emotion and individualism?",
       "What is the definition of a synonym?"]
    else if diff = "medium" then some
      ["Which narrative technique involves revealing events out of chronological order?",
       "What rhetorical device repeats consonant sounds at the beginning of words?",
       "Which poetic form consists of fourteen lines with a specific rhyme scheme?",
       "What grammatical function does a subordinating conjunction serve?"]
    else if diff = "hard" then some
      ["Which literary theory would best analyze the class dynamics in this text?",
       "What linguistic phenomenon explains the evolution of this grammatical structure?",
       "Which narrative perspective creates the most limited point of view?",
       "How does metafiction challenge conventional narrative structures?"]
    else none
  else none

/-- `subjectTemplates[type][difficulty]`: the subject-domain dispatch chain
of `generateMeaningfulQuestion` (math first, then physics, chemistry,
computer/programming, biology, history/social studies,
language/literature/english; `none` when the subject matches no domain or
the domain bank lacks the type/difficulty). -/
def subjectBank (subject : Option String) (ty diff : String) : Option (List String) :=
  if subjHas subject "math" || subjHas subject "algebra" || subjHas subject "geometry" || subjHas subject "calculus" then
    mathBank ty diff
  else if subjHas subject "physics" then physicsBank ty diff
  else if subjHas subject "chemistry" then chemistryBank ty diff
  else if subjHas subject "computer" || subjHas subject "programming" then computerBank ty diff
  else if subjHas subject "biology" then biologyBank ty diff
  else if subjHas subject "history" || subjHas subject "social studies" then historyBank ty diff
  else if subjHas subject "language" || subjHas subject "literature" || subjHas subject "english" then languageBank ty diff
  else none

/-- Question-text selection of `generateMeaningfulQuestion`
(`templateOptions[index % templateOptions.length]`, subject bank first,
then the general bank, then the fixed fallback sentence). -/
def genText (subject : Option String) (ty diff : String) (i : Nat) : String :=
  match subjectBank subject ty diff with
  | some bank => (bank.get? (i % bank.length)).getD ""
  | none =>
    match generalTemplates ty diff with
    | some bank => (bank.get? (i % bank.length)).getD ""
    | none => "Answer the following question about this concept."

/-- Math MCQ option sets, keyed on the chosen question text. -/
def mathOptions (qt : String) : List String :=
  if strContains qt "equation" then ["x = 5", "x = 7", "x = 8", "x = 9"]
  else if strContains qt "area" then
    ["36 square units", "48 square units", "14 square units", "24 square units"]
  else if strContains qt "circle" then ["A = 2πr", "A = πr", "A = πr²", "A = 2πr²"]
  else if strContains qt "divisible" then ["4", "5", "6", "9"]
  else if strContains qt "quadratic" then
    ["x² - x - 6 = 0", "x² + x - 6 = 0", "x² - x + 6 = 0", "x² + x + 6 = 0"]
  else if strContains qt "triangle" then ["45°", "60°", "90°", "180°"]
  else if strContains qt "trigonometric" then ["sine", "cosine", "tangent", "secant"]
  else if strContains qt "f(x)" then ["7", "9", "11", "13"]
  else if strContains qt "convergence" then
    ["Ratio test", "Root test", "Integral test", "Comparison test"]
  else if strContains qt "matrix" then
    ["Eigenvalue Theorem", "Diagonalization Theorem", "Characteristic Equation", "Cayley-Hamilton Theorem"]
  else
    ["The first mathematical option", "The second mathematical option",
     "The third mathematical option", "The correct mathematical answer"]

/-- Physics MCQ option sets. -/
def physicsOptions (qt : String) : List String :=
  if strContains qt "SI unit" then ["Newton", "Joule", "Watt", "Pascal"]
  else if strContains qt "energy" then
    ["Potential energy", "Kinetic energy", "Thermal energy", "Nuclear energy"]
  else if strContains qt "conservation" then ["Momentum", "Acceleration", "Velocity", "Force"]
  else if strContains qt "quantum" then
    ["Uncertainty principle", "Wave function collapse", "Quantum entanglement", "Pauli exclusion principle"]
  else
    ["First physics concept", "Second physics concept",
     "Third physics concept", "Correct physics answer"]

/-- Chemistry MCQ option sets. -/
def chemistryOptions (qt : String) : List String :=
  if strContains qt "chemical change" then
    ["Melting of ice", "Evaporation of water", "Rusting of iron", "Grinding of salt"]
  else if strContains qt "bond" then
    ["Ionic bond", "Covalent bond", "Metallic bond", "Hydrogen bond"]
  else if strContains qt "pH" then ["0", "7", "14", "1"]
  else
    ["First chemistry concept", "Second chemistry concept",
     "Third chemistry concept", "Correct chemistry answer"]

/-- Computer-science MCQ option sets. -/
def computerOptions (qt : String) : List String :=
  if strContains qt "data structure" then ["Stack", "Queue", "Binary tree", "Hash table"]
  else if strContains qt "time complexity" then ["O(1)", "O(n)", "O(log n)", "O(n²)"]
  else if strContains qt "design pattern" then ["Singleton", "Factory", "Observer", "Decorator"]
  else
    ["First programming concept", "Second programming concept",
     "Third programming concept", "Correct programming answer"]

/-- Biology MCQ option sets. -/
def biologyOptions (qt : String) : List String :=
  if strContains qt "organelle" then ["Nucleus", "Mitochondria", "Ribosome", "Golgi apparatus"]
  else if strContains qt "meiosis" then ["Prophase I", "Metaphase I", "Anaphase I", "Telophase I"]
  else if strContains qt "hormone" then ["Insulin", "Thyroxine", "Estrogen", "Testosterone"]
  else
    ["First biological concept", "Second biological concept",
     "Third biological concept", "Correct biological answer"]

/-- The generic option templates, selected by `index % 4`. -/
def genericOptions (i : Nat) : List String :=
  let optionTemplates : List (List String) :=
    [["Incorrect option based on a common misconception", "Partially correct but incomplete option",
      "Option that seems plausible but contains errors", "The correct and complete answer"],
     ["Option that misapplies a principle", "Option using an outdated theory",
      "Option with calculation errors", "Correct application of principles"],
     ["First incorrect approach", "Second incorrect approach",
      "Third incorrect approach", "Correct approach"],
     ["Option with logical fallacy", "Option with incomplete reasoning",
      "Option missing key considerations", "Option with complete and correct reasoning"]]
  (optionTemplates.get? (i % optionTemplates.length)).getD []

/-- MCQ option-set selection of `generateMeaningfulQuestion`: keyed on the
subject domain and on keyword matches against the chosen question text. -/
def genOptions (subject : Option String) (qt : String) (i : Nat) : List String :=
  if subjHas subject "math" then mathOptions qt
  else if subjHas subject "physics" then physicsOptions qt
  else if subjHas subject "chemistry" then chemistryOptions qt
  else if subjHas subject "computer" || subjHas subject "programming" then computerOptions qt
  else if subjHas subject "biology" then biologyOptions qt
  else genericOptions i

/-- `marks || this.getDefaultMarks(type, difficulty)` in the template
fallback generator. -/
def marksOr (marks : Option Nat) (ty diff : String) : Option Nat :=
  match marks with
  | some m => if m = 0 then getDefaultMarks (some ty) (some diff) else some m
  | none => getDefaultMarks (some ty) (some diff)

/-- `generateMeaningfulQuestion(topic, type, difficulty, marks, subject,
index)`: the template fallback generator.  For MCQs the correct answer is
`options[3]` (the last option, by the source's convention). -/
def generateMeaningfulQuestion (topic ty diff : String) (marks : Option Nat)
    (subject : Option String) (i : Nat) : Question :=
  let questionText := genText subject ty diff i
  let base : Question :=
    { text := questionText
      type := ty
      difficulty := diff
      marks := marksOr marks ty diff
      topic := topic
      bloomsTaxonomy := none
      explanation := none
      options := none
      correctAnswer := none
      subject := none }
  if ty = "mcq" then
    let options := genOptions subject questionText i
    { base with options := some options, correctAnswer := options.get? 3 }
  else base

/-- The `For ${subject}: … (Variant ${attempts})` / `… (Variant ${attempts})`
text modification applied by the reconciler when a synthesized question text
keeps colliding. -/
def variantText (subject : Option String) (text : String) (attempts : Nat) : String :=
  match subject with
  | some s =>
    if s = "" then text ++ " (Variant " ++ toString attempts ++ ")"
    else "For " ++ s ++ ": " ++ text ++ " (Variant " ++ toString attempts ++ ")"
  | none => text ++ " (Variant " ++ toString attempts ++ ")"

/-- The `do … while (!isUnique && attempts < 10)` loop body of the
reconciler's deficit path, with fuel (the source's `attempts < 10` guard
bounds the loop by 10 iterations, so `synthLoop` runs it with fuel 10).
The candidate is regenerated with the *same* `i` on every pass, so a
collision persists until `attempts > 3` forces the variant suffix, after
which `isUnique` is set without re-checking the text against the seen
texts. -/
def synthLoopGo (topic ty diff : String) (marks : Option Nat) (subject : Option String)
    (i : Nat) (texts : List String) : Nat → Nat → Question
  | 0, _ => generateMeaningfulQuestion topic ty diff marks subject i
  | fuel + 1, attempts =>
    let newQuestion := generateMeaningfulQuestion topic ty diff marks subject i
    let attempts1 := attempts + 1
    if ! texts.contains newQuestion.text then newQuestion
    else if 3 < attempts1 then
      { newQuestion with text := variantText subject newQuestion.text attempts1 }
    else if attempts1 < 10 then synthLoopGo topic ty diff marks subject i texts fuel attempts1
    else newQuestion

/-- One synthesized question of the deficit path (the whole uniqueness
loop for one loop index `i`). -/
def synthLoop (topic ty diff : String) (marks : Option Nat) (subject : Option String)
    (i : Nat) (texts : List String) : Question :=
  synthLoopGo topic ty diff marks subject i texts 10 0

/-- The `for (let i = 0; i < missingCount; i++)` synthesis loop of the
deficit path: each new question gets `marks` forced to the bucket's
requested marks, is tagged with the subject when one is given, and its text
is appended to the seen texts. -/
def synthMissing (topic : String) (e : QDist) (subject : Option String) :
    Nat → Nat → List String → List Question
  | _, 0, _ => []
  | i, r + 1, texts =>
    let nq0 := synthLoop topic e.type e.difficulty e.marks subject i texts
    let nq : Question :=
      { nq0 with
        marks := e.marks
        subject := if subjTruthy subject then subject else nq0.subject }
    nq :: synthMissing topic e subject (i + 1) r (texts ++ [nq.text])

/-- Read of the JavaScript object used as a map: a missing key is `none`.
`orgGet` is the value list with a missing key read as `[]`. -/
def orgGet (org : String → Option (List Question)) (t : String) : List Question :=
  (org t).getD []

/-- The initial `organizedQuestions` partition: one `forEach` push per
question onto the array at its `type` key (creating the key on first use). -/
def initialOrg (qs : List Question) : String → Option (List Question) :=
  qs.foldl
    (fun org q => fun t => if t = q.type then some (orgGet org q.type ++ [q]) else org t)
    (fun _ => none)

/-- The `${type}-${difficulty}` key of the `questionCounts` map. -/
def bucketKey (t d : String) : String := t ++ "-" ++ d

/-- `questionCounts.get(key) || 0`: the number of generated questions whose
`${type}-${difficulty}` key equals `key`. -/
def countKey (qs : List Question) (key : String) : Nat :=
  (qs.filter (fun q => bucketKey q.type q.difficulty == key)).length

/-- The questions synthesized for one deficit bucket: `missingCount` new
questions, de-duplicated against the texts of the existing questions of that
bucket. -/
def deficitNew (qs : List Question) (topic : String) (subject : Option String)
    (e : QDist) : List Question :=
  let currentCount := countKey qs (bucketKey e.type e.difficulty)
  let missingCount := e.count - currentCount
  let existingTexts :=
    (qs.filter (fun q => q.type == e.type && q.difficulty == e.difficulty)).map
      (fun q => q.text)
  synthMissing topic e subject 0 missingCount existingTexts

/-- The surplus-trimming transformation of `organizedQuestions[distItem.type]`:
filter the type's array down to questions that are not of this bucket or
whose text matches one of the first `count` bucket questions, then re-add any
kept questions that went missing (compared again by text). -/
def trimmed (qs : List Question) (e : QDist) (l : List Question) : List Question :=
  let questionsOfType :=
    qs.filter (fun q => q.type == e.type && q.difficulty == e.difficulty)
  let toKeep := questionsOfType.take e.count
  let l1 := l.filter (fun q =>
    ! (q.type == e.type && q.difficulty == e.difficulty)
      || toKeep.any (fun keep => keep.text == q.text))
  let existing := l1.filter (fun q => q.type == e.type && q.difficulty == e.difficulty)
  if existing.length < toKeep.length then
    l1 ++ toKeep.filter (fun keep => ! existing.any (fun ex => ex.text == keep.text))
  else l1

/-- The body of the reconciler's second pass for one distribution item:
deficit → synthesize and push; surplus → trim by text-matched keep list;
exact → untouched.  The source's
`if (!organizedQuestions[distItem.type]) organizedQuestions[distItem.type] = []`
initialization before the deficit pushes is folded into `orgGet`. -/
def reconcileStep (qs : List Question) (topic : String) (subject : Option String)
    (org : String → Option (List Question)) (e : QDist) :
    String → Option (List Question) :=
  let currentCount := countKey qs (bucketKey e.type e.difficulty)
  if currentCount < e.count then
    fun t => if t = e.type then some (orgGet org e.type ++ deficitNew qs topic subject e)
             else org t
  else if e.count < currentCount then
    match org e.type with
    | none => org
    | some l => fun t => if t = e.type then some (trimmed qs e l) else org t
  else org

/-- The fixed type precedence of the final reassembly. -/
def typeOrder : List String :=
  ["mcq", "short", "long", "diagram", "code", "hots", "case_study"]

/-- The three difficulty levels of the canonical schema. -/
def difficultyNames : List String := ["easy", "medium", "hard"]

/-- One push of the final reassembly: append the type's array when the key
is present and non-empty. -/
def assembleStep (org : String → Option (List Question)) (acc : List Question)
    (t : String) : List Question :=
  match org t with
  | some l => if 0 < l.length then acc ++ l else acc
  | none => acc

/-- The final reassembly: push each known type's array (when present and
non-empty) in the fixed `typeOrder`. -/
def assembleFinal (org : String → Option (List Question)) : List Question :=
  typeOrder.foldl (assembleStep org) []

/-- The reconciler state after the whole second pass. -/
def reconcileAll (qs : List Question) (dist : List QDist) (topic : String)
    (subject : Option String) : String → Option (List Question) :=
  dist.foldl (reconcileStep qs topic subject) (initialOrg qs)

/-- `ensureQuestionCount(generatedQuestions, questionDistribution, topic,
subject)`: the distribution reconciler.  The final verification pass of the
source only logs (see `distributionWarnings`); the assembled best-effort
list is returned unconditionally. -/
def ensureQuestionCount (generatedQuestions : List Question)
    (questionDistribution : List QDist) (topic : String)
    (subject : Option String) : List Question :=
  assembleFinal (reconcileAll generatedQuestions questionDistribution topic subject)

/-- The warning messages of the reconciler's final verification pass,
reified: one entry `(distItem, countByType)` for each distribution item
whose final bucket count differs from the requested count. -/
def distributionWarnings (finalQuestions : List Question) (dist : List QDist) :
    List (QDist × Nat) :=
  (dist.map (fun e =>
      (e, (finalQuestions.filter (fun q =>
              q.type == e.type && q.difficulty == e.difficulty)).length))).filter
    (fun p => p.2 != p.1.count)

/-- Grouping helper used by the statements: the sub-list of one
`(type, difficulty)` bucket. -/
def bFilter (t d : String) (l : List Question) : List Question :=
  l.filter (fun q => q.type == t && q.difficulty == d)

/-- The size of one `(type, difficulty)` bucket. -/
def bucketCount (l : List Question) (t d : String) : Nat := (bFilter t d l).length

/-!
### JSON extraction front end

`generateQuestions` feeds the raw model text through `cleanJsonResponse`,
slices the first `{` … last `}` span (`match(/\{[\s\S]*\}/)`), and attempts
a direct `JSON.parse`.  JSON values are modelled by the mutual `Json`
family; `JSON.parse` is modelled by a fuel-indexed recursive-descent parser
restricted to the canonical grammar (integer numerals, the common string
escapes, raw control characters rejected). -/

mutual
/-- A JSON value (numbers restricted to integers). -/
inductive Json where
  | null : Json
  | bool (b : Bool) : Json
  | num (n : Int) : Json
  | str (s : String) : Json
  | arr (xs : JsonList) : Json
  | obj (kvs : JsonObj) : Json
deriving DecidableEq, Repr

/-- The element list of a JSON array. -/
inductive JsonList where
  | nil : JsonList
  | cons (hd : Json) (tl : JsonList) : JsonList
deriving DecidableEq, Repr

/-- The key/value list of a JSON object. -/
inductive JsonObj where
  | nil : JsonObj
  | cons (k : String) (v : Json) (tl : JsonObj) : JsonObj
deriving DecidableEq, Repr
end

/-- The decimal digit character of `d` (for `d < 10`). -/
def digitChar (d : Nat) : Char := Char.ofNat (48 + d)

/-- Decimal rendering of a natural number, with fuel (one division by 10
per step, so `n + 1` steps always suffice). -/
def natToCharsAux : Nat → Nat → List Char
  | 0, _ => []
  | f + 1, n =>
    if n < 10 then [digitChar n]
    else natToCharsAux f (n / 10) ++ [digitChar (n % 10)]

/-- Decimal rendering of a natural number. -/
def natToChars (n : Nat) : List Char := natToCharsAux (n + 1) n

/-- Canonical JSON escaping of one string character. -/
def escapeChar (c : Char) : List Char :=
  if c = '"' then ['\\', '"'] else if c = '\\' then ['\\', '\\'] else [c]

/-- Canonical JSON escaping of string contents. -/
def escapeChars : List Char → List Char
  | [] => []
  | c :: r => escapeChar c ++ escapeChars r

mutual
/-- Canonical (whitespace-free) serialization of a JSON value. -/
def renderV : Json → List Char
  | .null => "null".data
  | .bool true => "true".data
  | .bool false => "false".data
  | .num (Int.ofNat m) => natToChars m
  | .num (Int.negSucc m) => '-' :: natToChars (m + 1)
  | .str s => '"' :: (escapeChars s.data ++ ['"'])
  | .arr .nil => ['[', ']']
  | .arr (.cons v tl) => '[' :: (renderL (.cons v tl) ++ [']'])
  | .obj .nil => ['{', '}']
  | .obj (.cons k v tl) => '{' :: (renderO (.cons k v tl) ++ ['}'])

/-- Comma-separated serialization of array elements. -/
def renderL : JsonList → List Char
  | .nil => []
  | .cons v .nil => renderV v
  | .cons v (.cons w tl) => renderV v ++ ',' :: renderL (.cons w tl)

/-- Comma-separated serialization of object members. -/
def renderO : JsonObj → List Char
  | .nil => []
  | .cons k v .nil => '"' :: (escapeChars k.data ++ '"' :: ':' :: renderV v)
  | .cons k v (.cons k2 w tl) =>
    ('"' :: (escapeChars k.data ++ '"' :: ':' :: renderV v)) ++ ',' :: renderO (.cons k2 w tl)
end

/-- The serialized text of a JSON value. -/
def renderJson (v : Json) : String := String.mk (renderV v)

mutual
/-- Structural size used as the parser fuel bound. -/
def jsizeV : Json → Nat
  | .null => 1
  | .bool _ => 1
  | .num _ => 1
  | .str _ => 1
  | .arr xs => 1 + jsizeL xs
  | .obj kvs => 1 + jsizeO kvs

/-- Size of array elements. -/
def jsizeL : JsonList → Nat
  | .nil => 0
  | .cons v tl => 1 + jsizeV v + jsizeL tl

/-- Size of object members. -/
def jsizeO : JsonObj → Nat
  | .nil => 0
  | .cons _ v tl => 1 + jsizeV v + jsizeO tl
end

mutual
/-- Well-formedness for the canonical grammar: no raw control characters in
strings (those are rejected by `JSON.parse` and by the parser below). -/
def wfV : Json → Bool
  | .null => true
  | .bool _ => true
  | .num _ => true
  | .str s => s.data.all (fun c => 32 ≤ c.toNat)
  | .arr xs => wfL xs
  | .obj kvs => wfO kvs

/-- Well-formedness of array elements. -/
def wfL : JsonList → Bool
  | .nil => true
  | .cons v tl => wfV v && wfL tl

/-- Well-formedness of object members. -/
def wfO : JsonObj → Bool
  | .nil => true
  | .cons k v tl => k.data.all (fun c => 32 ≤ c.toNat) && wfV v && wfO tl
end

/-- Whitespace skipping between JSON tokens. -/
def skipWs (l : List Char) : List Char := l.dropWhile Char.isWhitespace

/-- Greedy digit run, accumulating the value. -/
def parseDigits (acc : Nat) : List Char → Nat × List Char
  | [] => (acc, [])
  | c :: r => if c.isDigit then parseDigits (acc * 10 + (c.toNat - 48)) r else (acc, c :: r)

/-- A natural numeral (at least one digit required). -/
def parseNatChars (l : List Char) : Option (Nat × List Char) :=
  match l with
  | [] => none
  | c :: _ => if c.isDigit then some (parseDigits 0 l) else none

/-- JSON string escapes recognized by the parser. -/
def unescapeChar (e : Char) : Option Char :=
  if e = '"' then some '"'
  else if e = '\\' then some '\\'
  else if e = '/' then some '/'
  else if e = 'n' then some '\n'
  else if e = 't' then some '\t'
  else if e = 'r' then some '\r'
  else if e = 'b' then some (Char.ofNat 8)
  else if e = 'f' then some (Char.ofNat 12)
  else none

/-- String-literal contents after the opening quote, up to and including the
closing quote; raw control characters are rejected. -/
def parseStrChars : List Char → Option (List Char × List Char)
  | [] => none
  | c :: r =>
    if c = '"' then some ([], r)
    else if c = '\\' then
      match r with
      | [] => none
      | e :: r1 =>
        match unescapeChar e with
        | none => none
        | some d =>
          match parseStrChars r1 with
          | some (cs, r2) => some (d :: cs, r2)
          | none => none
    else if c.toNat < 32 then none
    else
      match parseStrChars r with
      | some (cs, r2) => some (c :: cs, r2)
      | none => none

mutual
/-- One JSON value (recursive descent, fuel-indexed). -/
def parseVal : Nat → List Char → Option (Json × List Char)
  | 0, _ => none
  | f + 1, input =>
    match skipWs input with
    | [] => none
    | c :: r =>
      if c = '{' then
        match skipWs r with
        | [] => none
        | c2 :: r2 =>
          if c2 = '}' then some (.obj .nil, r2)
          else
            match parseObjItems f (c2 :: r2) with
            | some (kvs, r3) => some (.obj kvs, r3)
            | none => none
      else if c = '[' then
        match skipWs r with
        | [] => none
        | c2 :: r2 =>
          if c2 = ']' then some (.arr .nil, r2)
          else
            match parseArrItems f (c2 :: r2) with
            | some (xs, r3) => some (.arr xs, r3)
            | none => none
      else if c = '"' then
        match parseStrChars r with
        | some (cs, r2) => some (.str (String.mk cs), r2)
        | none => none
      else if c = 't' then
        if ['r', 'u', 'e'].isPrefixOf r then some (.bool true, r.drop 3) else none
      else if c = 'f' then
        if ['a', 'l', 's', 'e'].isPrefixOf r then some (.bool false, r.drop 4) else none
      else if c = 'n' then
        if ['u', 'l', 'l'].isPrefixOf r then some (.null, r.drop 3) else none
      else if c = '-' then
        match parseNatChars r with
        | some (n, r2) => some (.num (-(n : Int)), r2)
        | none => none
      else if c.isDigit then
        match parseNatChars (c :: r) with
        | some (n, r2) => some (.num (n : Int), r2)
        | none => none
      else none

/-- Array elements after a non-`]` character following `[`. -/
def parseArrItems : Nat → List Char → Option (JsonList × List Char)
  | 0, _ => none
  | f + 1, input =>
    match parseVal f input with
    | none => none
    | some (v, r) =>
      match skipWs r with
      | [] => none
      | c :: r2 =>
        if c = ',' then
          match parseArrItems f r2 with
          | some (xs, r3) => some (.cons v xs, r3)
          | none => none
        else if c = ']' then some (.cons v .nil, r2)
        else none

/-- Object members after a non-`}` character following `{`. -/
def parseObjItems : Nat → List Char → Option (JsonObj × List Char)
  | 0, _ => none
  | f + 1, input =>
    match skipWs input with
    | [] => none
    | c0 :: r0 =>
      if c0 = '"' then
        match parseStrChars r0 with
        | none => none
        | some (k, r1) =>
          match skipWs r1 with
          | [] => none
          | c1 :: r2 =>
            if c1 = ':' then
              match parseVal f r2 with
              | none => none
              | some (v, r3) =>
                match skipWs r3 with
                | [] => none
                | c2 :: r4 =>
                  if c2 = ',' then
                    match parseObjItems f r4 with
                    | some (kvs, r5) => some (.cons (String.mk k) v kvs, r5)
                    | none => none
                  else if c2 = '}' then some (.cons (String.mk k) v .nil, r4)
                  else none
            else none
      else none
end

/-- The model of `JSON.parse` on the canonical grammar: parse one value and
require only whitespace after it. -/
def parseJsonText (s : String) : Except String Json :=
  match parseVal (s.data.length + 1) s.data with
  | some (v, r) => if skipWs r = [] then .ok v else .error "unexpected trailing characters"
  | none => .error "could not parse JSON"

/-- First occurrence split: `some (before, after)` where `before` is the
text preceding the first occurrence of `pat` and `after` the text
following it. -/
def splitOnFirst (pat : List Char) : List Char → Option (List Char × List Char)
  | [] => if pat.isEmpty then some ([], []) else none
  | c :: r =>
    if pat.isPrefixOf (c :: r) then some ([], (c :: r).drop pat.length)
    else
      match splitOnFirst pat r with
      | some (a, b) => some (c :: a, b)
      | none => none

/-- The optional `json`/`javascript` language tag after the opening fence
(the regex alternation tries `json` first). -/
def stripTag (l : List Char) : List Char :=
  if ['j', 's', 'o', 'n'].isPrefixOf l then l.drop 4
  else if "javascript".data.isPrefixOf l then l.drop 10
  else l

/-- JavaScript `String.prototype.trim` on char lists. -/
def trimChars (l : List Char) : List Char :=
  ((l.dropWhile Char.isWhitespace).reverse.dropWhile Char.isWhitespace).reverse

/-- `replace(/\*\*/g, '')`: drop non-overlapping `**` pairs left to right. -/
def removeStarStar : List Char → List Char
  | '*' :: '*' :: r => removeStarStar r
  | c :: r => c :: removeStarStar r
  | [] => []

/-- Is this a `\n` or `\r` character? -/
def isNl (c : Char) : Bool := c == '\n' || c == '\r'

/-- `replace(/(?<="[^"]*)[\n\r]+(?=[^"]*")/g, ' ')`: a maximal newline run
with some `"` before it and some `"` after it collapses to one space (the
unbounded lookbehind/lookahead hold exactly when such quotes exist).  The
state is `none` outside a run, `some true` inside a replaced run,
`some false` inside a kept run. -/
def collapseNlGo (seenQ : Bool) (st : Option Bool) : List Char → List Char
  | [] => []
  | c :: r =>
    if isNl c then
      match st with
      | some true => collapseNlGo seenQ (some true) r
      | some false => c :: collapseNlGo seenQ (some false) r
      | none =>
        if seenQ && ((c :: r).dropWhile isNl).contains '"' then
          ' ' :: collapseNlGo seenQ (some true) r
        else c :: collapseNlGo seenQ (some false) r
    else c :: collapseNlGo (seenQ || c == '"') none r

/-- `replace(/\s+/g, ' ')`: each maximal whitespace run becomes one space. -/
def collapseWsGo (inRun : Bool) : List Char → List Char
  | [] => []
  | c :: r =>
    if c.isWhitespace then
      if inRun then collapseWsGo true r else ' ' :: collapseWsGo true r
    else c :: collapseWsGo false r

/-- `replace(/^[^{]*/, '')`: drop everything before the first `{`. -/
def dropBeforeBrace (l : List Char) : List Char := l.dropWhile (fun c => c != '{')

/-- `replace(/}[^}]*$/, '}')`: drop everything after the last `}` (when one
exists). -/
def trimAfterLastBrace (l : List Char) : List Char :=
  if l.contains '}' then (l.reverse.dropWhile (fun c => c != '}')).reverse else l

/-- The non-code-block cleanup branch of `cleanJsonResponse`. -/
def cleanupChars (l : List Char) : List Char :=
  trimAfterLastBrace (dropBeforeBrace (collapseWsGo false (collapseNlGo false none (removeStarStar l))))

/-- `cleanJsonResponse(responseText)`: take the interior of the first fenced
code block when the fence closes (the lazy capture ends at the next
` ``` `), else apply the markdown/whitespace cleanup. -/
def cleanJsonResponse (responseText : String) : String :=
  match splitOnFirst "```".data responseText.data with
  | some (_, afterOpen) =>
    match splitOnFirst "```".data (stripTag afterOpen) with
    | some (interior, _) => String.mk (trimChars interior)
    | none => String.mk (cleanupChars responseText.data)
  | none => String.mk (cleanupChars responseText.data)

/-- `match(/\{[\s\S]*\}/)` with the `jsonMatch ? jsonMatch[0] : ""`
fallback: the span from the first `{` through the last `}` after it, or the
empty string. -/
def braceSliceChars (l : List Char) : List Char :=
  match l.dropWhile (fun c => c != '{') with
  | [] => []
  | c :: rest =>
    if rest.contains '}' then
      ((c :: rest).reverse.dropWhile (fun d => d != '}')).reverse
    else []

/-- String version of `braceSliceChars`. -/
def braceSlice (s : String) : String := String.mk (braceSliceChars s.data)

/-- The first direct parse attempt of the extraction cascade in
`generateQuestions`: `JSON.parse(jsonStr)` on the cleaned, brace-sliced
response.  When this succeeds the cascade returns its value and no repair
heuristic runs. -/
def extractFirstParse (responseText : String) : Except String Json :=
  parseJsonText (braceSlice (cleanJsonResponse responseText))

/-!
## Theorems

### C4 — normalizer defaults
-/

/-- Modelled from the claim C4 wording (for the counterexample only): the
default marks the claim predicts, computed from the *defaulted* type and
difficulty. -/
def claimC4DefaultMarks (question : RawQuestion) : Option Nat :=
  getDefaultMarks (some (strOr question.type "mcq")) (some (strOr question.difficulty "medium"))

lemma multiplierHalves_ge_two (d : Option String) : 2 ≤ multiplierHalves d := by
  cases d with
  | none => exact Nat.le_refl 2
  | some s =>
    show 2 ≤ (if s = "easy" then 2 else if s = "medium" then 3 else if s = "hard" then 4 else 2)
    split_ifs <;> omega

lemma baseMarks_ge_two {t : Option String} {b : Nat} (h : baseMarks t = some b) : 2 ≤ b := by
  cases t with
  | none => exact absurd h (by simp [baseMarks])
  | some s =>
    unfold baseMarks at h
    dsimp only at h
    split_ifs at h <;> first | (injection h with h2; omega) | exact absurd h (by simp)

lemma getDefaultMarks_pos {t d : Option String} {m : Nat}
    (h : getDefaultMarks t d = some m) : 0 < m := by
  unfold getDefaultMarks at h
  cases hb : baseMarks t with
  | none => rw [hb] at h; simp at h
  | some b =>
    rw [hb] at h
    simp only [Option.map] at h
    injection h with h
    subst h
    have h2 := baseMarks_ge_two hb
    have h3 := multiplierHalves_ge_two d
    have : 2 ≤ (b * multiplierHalves d + 1) / 2 := by
      have : 4 ≤ b * multiplierHalves d := Nat.mul_le_mul h2 h3
      omega
    omega

lemma baseMarks_isSome_of_mem {t : String} (h : t ∈ typeOrder) :
    ∃ b, baseMarks (some t) = some b := by
  simp only [typeOrder, List.mem_cons, List.not_mem_nil, or_false] at h
  rcases h with rfl | rfl | rfl | rfl | rfl | rfl | rfl <;> exact ⟨_, rfl⟩

/-- C4 (amended): the normalizer fills a missing `type` with `mcq` and a
missing `difficulty` with `medium` in the output record, but a missing (or
zero) `marks` is computed by `getDefaultMarks` from the *raw* type and
difficulty: an unrecognized or missing raw difficulty gets multiplier ×1
(not medium's ×1.5), and a missing or unrecognized raw type yields `NaN`
(`none`), so the result is a positive integer only when the raw type is one
of the seven enumerated types. -/
theorem c4_normalizer_defaults (question : RawQuestion) (topic : String)
    (hm : question.marks = none ∨ question.marks = some 0) :
    (processOne question topic).marks = getDefaultMarks question.type question.difficulty
    ∧ (subjTruthy question.type = false → (processOne question topic).type = "mcq")
    ∧ (subjTruthy question.difficulty = false →
        (processOne question topic).difficulty = "medium")
    ∧ (∀ t, question.type = some t → t ∈ typeOrder →
        ∃ m, (processOne question topic).marks = some m ∧ 0 < m)
    ∧ (question.type = none → (processOne question topic).marks = none) := by
  have hmarks : (processOne question topic).marks
      = getDefaultMarks question.type question.difficulty := by
    have h1 : (processOne question topic).marks = defaultedMarks question := by
      unfold processOne
      dsimp only
      split <;> rfl
    have h2 : defaultedMarks question = getDefaultMarks question.type question.difficulty := by
      unfold defaultedMarks
      rcases hm with h | h <;> rw [h] <;> simp
    rw [h1, h2]
  have hstrOr : ∀ (v : Option String) (d : String),
      subjTruthy v = false → strOr v d = d := by
    intro v d h
    cases v with
    | none => rfl
    | some s =>
      simp only [subjTruthy, bne_iff_ne, ne_eq, decide_eq_false_iff_not, not_not] at h
      have hs : s = "" := by simpa using h
      simp [strOr, hs]
  have htype : subjTruthy question.type = false → (processOne question topic).type = "mcq" := by
    intro h
    have h2 := hstrOr question.type "mcq" h
    simp only [processOne, h2] <;> split <;> rfl
  have hdiff : subjTruthy question.difficulty = false →
      (processOne question topic).difficulty = "medium" := by
    intro h
    have h2 := hstrOr question.difficulty "medium" h
    simp only [processOne, h2] <;> split <;> rfl
  refine ⟨hmarks, htype, hdiff, ?_, ?_⟩
  · intro t ht htO
    rcases baseMarks_isSome_of_mem htO with ⟨b, hb⟩
    rw [ht] at hmarks
    have : ∃ m, getDefaultMarks (some t) question.difficulty = some m := by
      unfold getDefaultMarks
      rw [hb]
      exact ⟨_, rfl⟩
    rcases this with ⟨m, hmm⟩
    exact ⟨m, by rw [hmarks, hmm], getDefaultMarks_pos hmm⟩
  · intro h
    rw [h] at hmarks
    simpa [getDefaultMarks, baseMarks] using hmarks

/-- C4 counterexample: for a record with `type = "short"` and missing
`difficulty` and `marks`, the normalizer computes marks 4 (multiplier ×1 on
the missing raw difficulty), while the claim's rule (difficulty defaulted to
medium, ×1.5) predicts 6. -/
theorem c4_counterexample :
    (processOne { type := some "short" } "T").marks = some 4
    ∧ claimC4DefaultMarks { type := some "short" } = some 6
    ∧ (processOne { type := some "short" } "T").marks
        ≠ claimC4DefaultMarks { type := some "short" } := by
  decide

/-- C4 witness: the amended theorem applied at two concrete records (one
with everything missing, one with a recognized raw type). -/
theorem c4_normalizer_defaults_witness :
    ((processOne { } "T").type = "mcq"
      ∧ (processOne { } "T").difficulty = "medium"
      ∧ (processOne { } "T").marks = none)
    ∧ ∃ m, (processOne { type := some "short" } "T").marks = some m ∧ 0 < m := by
  have h1 := c4_normalizer_defaults { } "T" (Or.inl rfl)
  have h2 := c4_normalizer_defaults { type := some "short" } "T" (Or.inl rfl)
  exact ⟨⟨h1.2.1 (by decide), h1.2.2.1 (by decide), h1.2.2.2.2 rfl⟩,
    h2.2.2.2.1 "short" rfl (by decide)⟩

/-!
### C3 — MCQ options invariant
-/

lemma processOne_type (question : RawQuestion) (topic : String) :
    (processOne question topic).type = strOr question.type "mcq" := by
  unfold processOne
  dsimp only
  split <;> rfl

lemma processOne_options_of_mcq (question : RawQuestion) (topic : String)
    (h : strOr question.type "mcq" = "mcq") :
    (processOne question topic).options = some (validateMCQOptions question.options) := by
  unfold processOne
  dsimp only
  split
  · rfl
  · next hne => exact absurd h hne

lemma processOne_ca_of_mcq (question : RawQuestion) (topic : String)
    (h : strOr question.type "mcq" = "mcq") :
    (processOne question topic).correctAnswer
      = processCA question (validateMCQOptions question.options) := by
  unfold processOne
  dsimp only
  split
  · rfl
  · next hne => exact absurd h hne

lemma genQ_type (topic ty diff : String) (marks : Option Nat) (subject : Option String)
    (i : Nat) : (generateMeaningfulQuestion topic ty diff marks subject i).type = ty := by
  unfold generateMeaningfulQuestion
  dsimp only
  split <;> rfl

lemma genQ_difficulty (topic ty diff : String) (marks : Option Nat) (subject : Option String)
    (i : Nat) : (generateMeaningfulQuestion topic ty diff marks subject i).difficulty = diff := by
  unfold generateMeaningfulQuestion
  dsimp only
  split <;> rfl

lemma genQ_options_mcq (topic diff : String) (marks : Option Nat) (subject : Option String)
    (i : Nat) :
    (generateMeaningfulQuestion topic "mcq" diff marks subject i).options
      = some (genOptions subject (genText subject "mcq" diff i) i) := by
  unfold generateMeaningfulQuestion
  dsimp only
  split
  · rfl
  · next hne => exact absurd rfl hne

lemma genQ_ca_mcq (topic diff : String) (marks : Option Nat) (subject : Option String)
    (i : Nat) :
    (generateMeaningfulQuestion topic "mcq" diff marks subject i).correctAnswer
      = (genOptions subject (genText subject "mcq" diff i) i).get? 3 := by
  unfold generateMeaningfulQuestion
  dsimp only
  split
  · rfl
  · next hne => exact absurd rfl hne

lemma padOptionsGo_length {f : Nat} {l : List String} (h : 4 ≤ l.length + f) :
    4 ≤ (padOptionsGo f l).length := by
  induction f generalizing l with
  | zero => simpa using h
  | succ f ih =>
    unfold padOptionsGo
    split
    · exact ih (by simp; omega)
    · omega

lemma validateMCQOptions_length (o : Option (List String)) :
    (validateMCQOptions o).length = 4 := by
  cases o with
  | none =>
    have h := padOptionsGo_length (f := 4) (l := ([] : List String)) (by simp)
    simp only [validateMCQOptions, List.length_take]
    omega
  | some l =>
    simp only [validateMCQOptions]
    split
    · next hlt =>
      have h := padOptionsGo_length (f := 4) (l := l) (by omega)
      simp only [List.length_take]
      omega
    · next hge =>
      split
      · next hgt => simp only [List.length_take]; omega
      · next hle => omega

lemma get?_mem_of_length {l : List String} {n : Nat} (h : n < l.length) :
    ∃ c, l.get? n = some c ∧ c ∈ l := by
  exact ⟨l.get ⟨n, h⟩, List.get?_eq_get h, List.get_mem l _ _⟩

lemma mathOptions_length (qt : String) : (mathOptions qt).length = 4 := by
  unfold mathOptions
  repeat' split
  all_goals rfl

lemma physicsOptions_length (qt : String) : (physicsOptions qt).length = 4 := by
  unfold physicsOptions
  repeat' split
  all_goals rfl

lemma chemistryOptions_length (qt : String) : (chemistryOptions qt).length = 4 := by
  unfold chemistryOptions
  repeat' split
  all_goals rfl

lemma computerOptions_length (qt : String) : (computerOptions qt).length = 4 := by
  unfold computerOptions
  repeat' split
  all_goals rfl

lemma biologyOptions_length (qt : String) : (biologyOptions qt).length = 4 := by
  unfold biologyOptions
  repeat' split
  all_goals rfl

lemma genericOptions_length (i : Nat) : (genericOptions i).length = 4 := by
  unfold genericOptions
  have h4 : i % 4 = 0 ∨ i % 4 = 1 ∨ i % 4 = 2 ∨ i % 4 = 3 := by omega
  rcases h4 with h | h | h | h <;> simp [h]

lemma genOptions_length (subject : Option String) (qt : String) (i : Nat) :
    (genOptions subject qt i).length = 4 := by
  unfold genOptions
  repeat' split
  all_goals first
    | exact mathOptions_length qt
    | exact physicsOptions_length qt
    | exact chemistryOptions_length qt
    | exact computerOptions_length qt
    | exact biologyOptions_length qt
    | exact genericOptions_length i

/-- C3: every mcq question output by the normalizer, and every mcq question
produced by the template fallback generator, carries exactly 4 options and a
`correctAnswer` that is one of them. -/
theorem c3_mcq_options_invariant :
    (∀ (questions : List RawQuestion) (topic : String) (q : Question),
        q ∈ processQuestions questions topic → q.type = "mcq" →
        ∃ opts, q.options = some opts ∧ opts.length = 4
          ∧ ∃ c, q.correctAnswer = some c ∧ c ∈ opts)
    ∧ (∀ (topic diff : String) (marks : Option Nat) (subject : Option String) (i : Nat),
        ∃ opts, (generateMeaningfulQuestion topic "mcq" diff marks subject i).options = some opts
          ∧ opts.length = 4
          ∧ ∃ c, (generateMeaningfulQuestion topic "mcq" diff marks subject i).correctAnswer = some c
            ∧ c ∈ opts) := by
  constructor
  · intro questions topic q hq hty
    simp only [processQuestions, List.mem_map] at hq
    rcases hq with ⟨raw, _, rfl⟩
    have h : strOr raw.type "mcq" = "mcq" := by rw [← processOne_type raw topic, hty]
    refine ⟨validateMCQOptions raw.options, processOne_options_of_mcq raw topic h,
      validateMCQOptions_length _, ?_⟩
    have hlen := validateMCQOptions_length raw.options
    have h0 : (0 : Nat) < (validateMCQOptions raw.options).length := by omega
    rw [processOne_ca_of_mcq raw topic h]
    unfold processCA
    cases hca : raw.correctAnswer with
    | none => exact get?_mem_of_length h0
    | some c =>
      dsimp only
      split
      · next hc =>
        refine ⟨c, rfl, ?_⟩
        have := (Bool.and_eq_true _ _).mp hc
        simpa using List.mem_of_elem_eq_true this.2
      · exact get?_mem_of_length h0
  · intro topic diff marks subject i
    have hlen := genOptions_length subject (genText subject "mcq" diff i) i
    have h3 : (3 : Nat) < (genOptions subject (genText subject "mcq" diff i) i).length := by
      omega
    rcases get?_mem_of_length h3 with ⟨c, hc, hcm⟩
    exact ⟨genOptions subject (genText subject "mcq" diff i) i,
      genQ_options_mcq topic diff marks subject i, hlen,
      c, by rw [genQ_ca_mcq topic diff marks subject i]; exact hc, hcm⟩

/-- C3 witness: the invariant applied to a concrete normalized record and a
concrete synthesized mcq question. -/
theorem c3_mcq_options_invariant_witness :
    (∃ opts, (processOne { type := some "mcq", options := some ["a", "b"] } "T").options = some opts
      ∧ opts.length = 4
      ∧ ∃ c, (processOne { type := some "mcq", options := some ["a", "b"] } "T").correctAnswer = some c
        ∧ c ∈ opts)
    ∧ ∃ opts, (generateMeaningfulQuestion "T" "mcq" "easy" (some 2) none 0).options = some opts
      ∧ opts.length = 4
      ∧ ∃ c, (generateMeaningfulQuestion "T" "mcq" "easy" (some 2) none 0).correctAnswer = some c
        ∧ c ∈ opts := by
  constructor
  · exact c3_mcq_options_invariant.1 [{ type := some "mcq", options := some ["a", "b"] }] "T"
      (processOne { type := some "mcq", options := some ["a", "b"] } "T")
      (by simp [processQuestions]) (by decide)
  · exact c3_mcq_options_invariant.2 "T" "easy" (some 2) none 0

/-!
### C7 — idempotence of the normalizer
-/

/-- The canonical post-normalization schema of a `Question` (text non-empty,
enumerated type and difficulty, positive integer marks, non-empty topic,
optional fields absent or non-empty, and the mcq options/correctAnswer
invariant in the exact shape the normalizer produces). -/
def isCanonicalB (q : Question) : Bool :=
  (q.text != "") && typeOrder.contains q.type && difficultyNames.contains q.difficulty
    && (match q.marks with | some m => decide (0 < m) | none => false)
    && (q.topic != "")
    && (q.bloomsTaxonomy != some "") && (q.explanation != some "")
    && (if q.type == "mcq" then
          match q.options, q.correctAnswer with
          | some opts, some c =>
            (opts.length == 4) && (((c != "") && opts.contains c) || (opts.get? 0 == some c))
          | _, _ => false
        else (q.options == none) && (q.correctAnswer == none))

/-- The raw record carrying exactly the fields of a canonical question
(the identity injection of a `Question` back into the normalizer's input
shape). -/
def toRaw (q : Question) : RawQuestion :=
  { text := some q.text
    type := some q.type
    difficulty := some q.difficulty
    marks := q.marks
    topic := some q.topic
    bloomsTaxonomy := q.bloomsTaxonomy
    explanation := q.explanation
    options := q.options
    correctAnswer := q.correctAnswer
    subject := q.subject }

lemma mem_typeOrder_ne_empty {t : String} (h : t ∈ typeOrder) : t ≠ "" := by
  simp only [typeOrder, List.mem_cons, List.not_mem_nil, or_false] at h
  rcases h with rfl | rfl | rfl | rfl | rfl | rfl | rfl <;> decide

lemma strOr_of_ne {s : String} (d : String) (h : s ≠ "") : strOr (some s) d = s := by
  simp [strOr, h]

lemma strOrUndef_of {v : Option String} (h : v ≠ some "") : strOrUndef v = v := by
  cases v with
  | none => rfl
  | some s =>
    have hs : s ≠ "" := by rintro rfl; exact h rfl
    simp [strOrUndef, hs]

lemma validateMCQOptions_of_four {opts : List String} (h : opts.length = 4) :
    validateMCQOptions (some opts) = opts := by
  unfold validateMCQOptions
  dsimp only
  rw [if_neg (by omega), if_neg (by omega)]

/-- The per-record idempotence: a canonical question with no `subject` field
passes through the normalizer unchanged. -/
lemma processOne_toRaw {q : Question} (topic : String)
    (hc : isCanonicalB q = true) (hs : q.subject = none) :
    processOne (toRaw q) topic = q := by
  obtain ⟨text, ty, diff, marks, top, blooms, expl, opts?, ca?, subj⟩ := q
  simp only at hs
  subst hs
  unfold isCanonicalB at hc
  simp only at hc
  have p1 := (Bool.and_eq_true _ _).mp hc
  have hmcq := p1.2
  have p2 := (Bool.and_eq_true _ _).mp p1.1
  have hexpl : expl ≠ some "" := by simpa using p2.2
  have p3 := (Bool.and_eq_true _ _).mp p2.1
  have hblooms : blooms ≠ some "" := by simpa using p3.2
  have p4 := (Bool.and_eq_true _ _).mp p3.1
  have htopic : top ≠ "" := by simpa using p4.2
  have p5 := (Bool.and_eq_true _ _).mp p4.1
  have hmarks := p5.2
  have p6 := (Bool.and_eq_true _ _).mp p5.1
  have hdiffm := p6.2
  have p7 := (Bool.and_eq_true _ _).mp p6.1
  have htext : text ≠ "" := by simpa using p7.1
  have htyO : ty ∈ typeOrder := by simpa using List.mem_of_elem_eq_true p7.2
  have htyne : ty ≠ "" := mem_typeOrder_ne_empty htyO
  obtain ⟨m, hm, hmpos⟩ : ∃ m, marks = some m ∧ 0 < m := by
    revert hmarks
    cases marks with
    | none => intro h; simp at h
    | some m => intro h; exact ⟨m, rfl, by simpa using h⟩
  subst hm
  unfold processOne toRaw
  dsimp only
  rw [strOr_of_ne _ htyne, strOr_of_ne _ htext, strOr_of_ne _ htopic,
    strOrUndef_of hblooms, strOrUndef_of hexpl]
  have hdiffne : diff ≠ "" := by
    have hd : diff ∈ difficultyNames := by simpa using List.mem_of_elem_eq_true hdiffm
    simp only [difficultyNames, List.mem_cons, List.not_mem_nil, or_false] at hd
    rcases hd with h | h | h <;> rw [h] <;> decide
  rw [strOr_of_ne _ hdiffne]
  unfold defaultedMarks
  dsimp only
  rw [if_neg (show ¬ m = 0 by omega)]
  by_cases hqty : ty = "mcq"
  · rw [if_pos hqty]
    rw [if_pos (by simpa using hqty)] at hmcq
    revert hmcq
    cases opts? with
    | none => cases ca? <;> intro hmcq <;> simp at hmcq
    | some opts =>
      cases ca? with
      | none => intro hmcq; simp at hmcq
      | some c =>
        intro hmcq
        rw [Bool.and_eq_true] at hmcq
        have hlen : opts.length = 4 := by simpa using hmcq.1
        have hvo : validateMCQOptions (some opts) = opts := validateMCQOptions_of_four hlen
        unfold processCA
        dsimp only
        rw [hvo]
        rcases (Bool.or_eq_true _ _).mp hmcq.2 with h | h
        · rw [if_pos h]
        · by_cases h2 : ((c != "") && opts.contains c) = true
          · rw [if_pos h2]
          · rw [if_neg h2]
            have hg : opts.get? 0 = some c := by simpa using h
            rw [hg]
  · rw [if_neg hqty]
    rw [if_neg (by simpa using hqty)] at hmcq
    rw [Bool.and_eq_true] at hmcq
    have ho : opts? = none := by simpa using hmcq.1
    have hcn : ca? = none := by simpa using hmcq.2
    rw [ho, hcn]

/-- C7 (amended): the normalizer is idempotent on canonical question arrays
that carry no `subject` field; a `subject` field (which the canonical schema
allows after distribution-driven synthesis) is dropped by the normalizer, so
arrays containing it are not returned unchanged. -/
theorem c7_normalizer_idempotent (qs : List Question) (topic : String)
    (h : ∀ q ∈ qs, isCanonicalB q = true ∧ q.subject = none) :
    processQuestions (qs.map toRaw) topic = qs := by
  induction qs with
  | nil => rfl
  | cons q rest ih =>
    have hq := h q (List.mem_cons_self _ _)
    have hr := fun x hx => h x (List.mem_cons_of_mem _ hx)
    show processOne (toRaw q) topic :: processQuestions (rest.map toRaw) topic = q :: rest
    rw [processOne_toRaw topic hq.1 hq.2, ih hr]

/-- A concrete canonical mcq question carrying a `subject` tag. -/
def c7CexQ : Question :=
  { text := "Which of the following statements is correct?"
    type := "mcq"
    difficulty := "easy"
    marks := some 2
    topic := "Thermodynamics"
    options := some ["a", "b", "c", "d"]
    correctAnswer := some "d"
    subject := some "Physics" }

/-- C7 counterexample: the claim includes the optional `subject` field in the
canonical schema, but the normalizer drops it, so an already-canonical array
containing a subject-tagged question is not returned unchanged. -/
theorem c7_counterexample :
    isCanonicalB c7CexQ = true
    ∧ processQuestions [toRaw c7CexQ] "Thermodynamics" ≠ [c7CexQ] := by
  decide

/-- C7 witness: idempotence applied to a concrete canonical array without
subject tags. -/
theorem c7_normalizer_idempotent_witness :
    processQuestions ([{ c7CexQ with subject := none }].map toRaw) "Thermodynamics"
      = [{ c7CexQ with subject := none }] :=
  c7_normalizer_idempotent [{ c7CexQ with subject := none }] "Thermodynamics" (by decide)

/-!
### C5 — uniqueness of synthesized texts
-/

/-- C5 (amended): synthesized texts in a bucket are pairwise distinct only
while each template text arises at most twice: once fresh and once with the
forced `" (Variant 4)"` suffix, which is appended without re-checking the
seen texts.  For an initially empty `short`/`easy` bucket (a 4-template
bank) this covers every deficit up to 8. -/
theorem c5_synthesized_texts_distinct (n : Nat) (h : n ≤ 8) :
    ((ensureQuestionCount [] [⟨"short", "easy", n, some 4⟩] "T" none).map
        (fun q => q.text)).Nodup := by
  interval_cases n <;> decide

/-- C5 counterexample: a deficit of 3 in an empty `hots`/`hard` bucket (the
fallback single-template text) already produces two identical texts — the
second and third candidates both collide and both get the same
`" (Variant 4)"` suffix, which is never re-checked — refuting pairwise
distinctness for deficits up to 25. -/
theorem c5_counterexample :
    ¬ ((ensureQuestionCount [] [⟨"hots", "hard", 3, some 10⟩] "T" none).map
        (fun q => q.text)).Nodup := by
  decide

/-- C5 witness: the amended bound applied at the largest covered deficit. -/
theorem c5_synthesized_texts_distinct_witness :
    ((ensureQuestionCount [] [⟨"short", "easy", 8, some 4⟩] "T" none).map
        (fun q => q.text)).Nodup :=
  c5_synthesized_texts_distinct 8 (by omega)

/-!
### Reconciler machinery (for C1, C2, C6, C9, C10)
-/

/-- A string without hyphens; for such type/difficulty components the
`${type}-${difficulty}` key of `questionCounts` is injective. -/
def noHyphen (s : String) : Prop := '-' ∉ s.data

lemma mem_bFilter {t d : String} {l : List Question} {q : Question} :
    q ∈ bFilter t d l ↔ q ∈ l ∧ q.type = t ∧ q.difficulty = d := by
  simp [bFilter, List.mem_filter]

lemma bFilter_append (t d : String) (l1 l2 : List Question) :
    bFilter t d (l1 ++ l2) = bFilter t d l1 ++ bFilter t d l2 := by
  simp [bFilter]

lemma bFilter_eq_nil_of_types {t d t' : String} {l : List Question}
    (h : ∀ q ∈ l, q.type = t') (hne : t' ≠ t) : bFilter t d l = [] := by
  apply List.filter_eq_nil.mpr
  intro q hq
  have := h q hq
  simp [this, hne]

lemma bFilter_eq_self_of_bucket {t d : String} {l : List Question}
    (h : ∀ q ∈ l, q.type = t ∧ q.difficulty = d) : bFilter t d l = l := by
  apply List.filter_eq_self.mpr
  intro q hq
  have := h q hq
  simp [this.1, this.2]

lemma bFilter_eq_nil_of_other_bucket {t d : String} {l : List Question} {t2 d2 : String}
    (h : ∀ q ∈ l, q.type = t2 ∧ q.difficulty = d2) (hne : ¬ (t2 = t ∧ d2 = d)) :
    bFilter t d l = [] := by
  apply List.filter_eq_nil.mpr
  intro q hq
  obtain ⟨h1, h2⟩ := h q hq
  subst h1; subst h2
  simpa using hne

lemma bFilter_bFilter_type {t d : String} (qs : List Question) :
    bFilter t d (qs.filter (fun q => q.type == t)) = bFilter t d qs := by
  unfold bFilter
  rw [List.filter_filter]
  apply List.filter_congr
  intro q _
  by_cases h1 : q.type = t <;> by_cases h2 : q.difficulty = d <;> simp [h1, h2]

lemma initialOrg_fold_get (qs : List Question)
    (org0 : String → Option (List Question)) (t : String) :
    orgGet (qs.foldl
      (fun org q => fun t2 => if t2 = q.type then some (orgGet org q.type ++ [q]) else org t2)
      org0) t
      = orgGet org0 t ++ qs.filter (fun q => q.type == t) := by
  induction qs generalizing org0 with
  | nil => simp
  | cons q rest ih =>
    rw [List.foldl_cons, ih]
    by_cases h : q.type = t
    · subst h
      simp only [List.filter_cons]
      rw [if_pos (by simp)]
      have : orgGet
          (fun t2 => if t2 = q.type then some (orgGet org0 q.type ++ [q]) else org0 t2) q.type
          = orgGet org0 q.type ++ [q] := by
        simp [orgGet]
      rw [this, List.append_assoc]
      rfl
    · have h2 : orgGet
          (fun t2 => if t2 = q.type then some (orgGet org0 q.type ++ [q]) else org0 t2) t
          = orgGet org0 t := by
        unfold orgGet
        dsimp only
        rw [if_neg (fun heq : t = q.type => h heq.symm)]
      rw [h2, List.filter_cons, if_neg (by simpa using h)]

lemma initialOrg_get (qs : List Question) (t : String) :
    orgGet (initialOrg qs) t = qs.filter (fun q => q.type == t) := by
  unfold initialOrg
  rw [initialOrg_fold_get]
  rfl

lemma initialOrg_fold_none {qs : List Question}
    {org0 : String → Option (List Question)} {t : String}
    (h : qs.foldl
      (fun org q => fun t2 => if t2 = q.type then some (orgGet org q.type ++ [q]) else org t2)
      org0 t = none) :
    org0 t = none ∧ qs.filter (fun q => q.type == t) = [] := by
  induction qs generalizing org0 with
  | nil => exact ⟨h, rfl⟩
  | cons q rest ih =>
    rw [List.foldl_cons] at h
    obtain ⟨h1, h2⟩ := ih h
    by_cases heq : t = q.type
    · rw [if_pos heq] at h1; simp at h1
    · rw [if_neg heq] at h1
      refine ⟨h1, ?_⟩
      rw [List.filter_cons, if_neg (by simp; exact fun h3 => heq h3.symm)]
      exact h2

lemma initialOrg_none {qs : List Question} {t : String} (h : initialOrg qs t = none) :
    qs.filter (fun q => q.type == t) = [] :=
  (initialOrg_fold_none h).2

lemma synthLoopGo_fields (topic ty diff : String) (marks : Option Nat)
    (subject : Option String) (i : Nat) (texts : List String) :
    ∀ fuel attempts,
      (synthLoopGo topic ty diff marks subject i texts fuel attempts).type = ty
      ∧ (synthLoopGo topic ty diff marks subject i texts fuel attempts).difficulty = diff := by
  intro fuel
  induction fuel with
  | zero =>
    intro attempts
    exact ⟨genQ_type topic ty diff marks subject i, genQ_difficulty topic ty diff marks subject i⟩
  | succ fuel ih =>
    intro attempts
    unfold synthLoopGo
    dsimp only
    split
    · exact ⟨genQ_type topic ty diff marks subject i, genQ_difficulty topic ty diff marks subject i⟩
    · split
      · exact ⟨genQ_type topic ty diff marks subject i, genQ_difficulty topic ty diff marks subject i⟩
      · split
        · exact ih attempts.succ
        · exact ⟨genQ_type topic ty diff marks subject i,
            genQ_difficulty topic ty diff marks subject i⟩

lemma synthMissing_fields (topic : String) (e : QDist) (subject : Option String) :
    ∀ (i r : Nat) (texts : List String) (q : Question),
      q ∈ synthMissing topic e subject i r texts →
      q.type = e.type ∧ q.difficulty = e.difficulty ∧ q.marks = e.marks := by
  intro i r
  induction r generalizing i with
  | zero => intro texts q hq; simp [synthMissing] at hq
  | succ r ih =>
    intro texts q hq
    rw [synthMissing] at hq
    rcases List.mem_cons.mp hq with rfl | hmem
    · have hf := synthLoopGo_fields topic e.type e.difficulty e.marks subject i texts 10 0
      exact ⟨hf.1, hf.2, rfl⟩
    · exact ih (i + 1) _ q hmem

lemma synthMissing_length (topic : String) (e : QDist) (subject : Option String) :
    ∀ (i r : Nat) (texts : List String),
      (synthMissing topic e subject i r texts).length = r := by
  intro i r
  induction r generalizing i with
  | zero => intro texts; rfl
  | succ r ih => intro texts; rw [synthMissing]; simp [ih]

lemma hyphen_split : ∀ (A C B D : List Char), '-' ∉ A → '-' ∉ C →
    A ++ '-' :: B = C ++ '-' :: D → A = C ∧ B = D := by
  intro A
  induction A with
  | nil =>
    intro C B D _ hC h
    cases C with
    | nil => simpa using h
    | cons c cr =>
      simp only [List.nil_append, List.cons_append, List.cons.injEq] at h
      exact absurd (h.1 ▸ List.mem_cons_self c cr) (h.1 ▸ hC)
  | cons a ar ih =>
    intro C B D hA hC h
    cases C with
    | nil =>
      simp only [List.cons_append, List.nil_append, List.cons.injEq] at h
      exact absurd (h.1 ▸ List.mem_cons_self a ar) (fun hm => hA (by simp [h.1]))
    | cons c cr =>
      simp only [List.cons_append, List.cons.injEq] at h
      obtain ⟨rfl, h2⟩ := h
      have := ih cr B D (fun hm => hA (List.mem_cons_of_mem _ hm))
        (fun hm => hC (List.mem_cons_of_mem _ hm)) h2
      exact ⟨by rw [this.1], this.2⟩

lemma data_append (s t : String) : (s ++ t).data = s.data ++ t.data := rfl

lemma count_hyphen_zero {l : List Char} (h : '-' ∉ l) : l.count '-' = 0 :=
  List.count_eq_zero.mpr h

lemma bucketKey_inj {t1 d1 t2 d2 : String} (h1 : noHyphen t1) (h2 : noHyphen d1) :
    bucketKey t2 d2 = bucketKey t1 d1 ↔ t2 = t1 ∧ d2 = d1 := by
  constructor
  · intro h
    have hd : (bucketKey t2 d2).data = (bucketKey t1 d1).data := by rw [h]
    unfold bucketKey at hd
    rw [data_append, data_append, data_append, data_append] at hd
    have hdash : ("-" : String).data = ['-'] := rfl
    rw [hdash] at hd
    simp only [List.append_assoc, List.singleton_append] at hd
    have hc2 : '-' ∉ t2.data ∧ '-' ∉ d2.data := by
      have hcnt : (t2.data ++ '-' :: d2.data).count '-'
          = (t1.data ++ '-' :: d1.data).count '-' := by rw [hd]
      simp only [List.count_append, List.count_cons_self] at hcnt
      rw [count_hyphen_zero h1, count_hyphen_zero h2] at hcnt
      constructor
      · intro hm
        have := List.count_pos_iff_mem.mpr hm
        omega
      · intro hm
        have := List.count_pos_iff_mem.mpr hm
        omega
    obtain ⟨ha, hb⟩ := hyphen_split t2.data t1.data d2.data d1.data hc2.1 h1 hd
    exact ⟨String.ext ha, String.ext hb⟩
  · rintro ⟨rfl, rfl⟩
    rfl

lemma mem_typeOrder_noHyphen {t : String} (h : t ∈ typeOrder) : noHyphen t := by
  simp only [typeOrder, List.mem_cons, List.not_mem_nil, or_false] at h
  rcases h with rfl | rfl | rfl | rfl | rfl | rfl | rfl <;> (unfold noHyphen; decide)

lemma mem_difficultyNames_noHyphen {d : String} (h : d ∈ difficultyNames) : noHyphen d := by
  simp only [difficultyNames, List.mem_cons, List.not_mem_nil, or_false] at h
  rcases h with rfl | rfl | rfl <;> (unfold noHyphen; decide)

/-- For hyphen-free bucket components the `questionCounts` key count is
exactly the bucket size. -/
lemma countKey_eq_bucket {qs : List Question} {e : QDist}
    (h1 : noHyphen e.type) (h2 : noHyphen e.difficulty) :
    countKey qs (bucketKey e.type e.difficulty)
      = (bFilter e.type e.difficulty qs).length := by
  unfold countKey bFilter
  congr 1
  apply List.filter_congr
  intro q _
  by_cases hk : bucketKey q.type q.difficulty = bucketKey e.type e.difficulty
  · obtain ⟨ha, hb⟩ := (bucketKey_inj h1 h2).mp hk
    simp [hk, ha, hb]
  · have hnand : ¬ (q.type = e.type ∧ q.difficulty = e.difficulty) := by
      intro hq
      exact hk ((bucketKey_inj h1 h2).mpr hq)
    have hbeq : (bucketKey q.type q.difficulty == bucketKey e.type e.difficulty) = false := by
      simpa using hk
    rw [hbeq]
    rcases Decidable.not_and_iff_or_not.mp hnand with hq | hq
    · have h5 : (q.type == e.type) = false := by simpa using hq
      simp [h5]
    · have h5 : (q.difficulty == e.difficulty) = false := by simpa using hq
      simp [h5]

/-- The text-matched keep filter recovers exactly the first `c` questions of
a bucket whose texts are pairwise distinct. -/
lemma filter_textmatch_aux {T D : List Question}
    (hnd : ((T ++ D).map (fun q => q.text)).Nodup) :
    (T ++ D).filter (fun q => T.any (fun k => k.text == q.text)) = T := by
  rw [List.filter_append]
  have h1 : T.filter (fun q => T.any (fun k => k.text == q.text)) = T := by
    apply List.filter_eq_self.mpr
    intro q hq
    exact List.any_eq_true.mpr ⟨q, hq, by simp⟩
  have h2 : D.filter (fun q => T.any (fun k => k.text == q.text)) = [] := by
    apply List.filter_eq_nil.mpr
    intro q hq hany
    rcases List.any_eq_true.mp hany with ⟨k, hk, hkq⟩
    have htexteq : k.text = q.text := by simpa using hkq
    rw [List.map_append] at hnd
    have hdisj := (List.nodup_append.mp hnd).2.2
    exact hdisj (List.mem_map_of_mem _ hk) (htexteq ▸ List.mem_map_of_mem _ hq)
  rw [h1, h2, List.append_nil]

lemma filter_textmatch_take {B : List Question} {c : Nat}
    (hnd : (B.map (fun q => q.text)).Nodup) (hc : c ≤ B.length) :
    B.filter (fun q => (B.take c).any (fun k => k.text == q.text)) = B.take c := by
  have key := filter_textmatch_aux (T := B.take c) (D := B.drop c)
    (by rw [List.take_append_drop]; exact hnd)
  rw [List.take_append_drop] at key
  exact key

lemma bFilter_filter_keep (e : QDist) (l : List Question) (toKeep : List Question) :
    bFilter e.type e.difficulty (l.filter (fun q =>
        ! (q.type == e.type && q.difficulty == e.difficulty)
          || toKeep.any (fun keep => keep.text == q.text)))
      = (bFilter e.type e.difficulty l).filter
          (fun q => toKeep.any (fun keep => keep.text == q.text)) := by
  unfold bFilter
  rw [List.filter_filter, List.filter_filter]
  apply List.filter_congr
  intro q _
  by_cases h1 : (q.type == e.type && q.difficulty == e.difficulty) = true
  · rw [h1]
    simp
  · rw [Bool.not_eq_true] at h1
    rw [h1]
    simp

lemma bFilter_filter_other {t d : String} (e : QDist) (l : List Question)
    (p : Question → Bool) (hne : ¬ (e.type = t ∧ e.difficulty = d)) :
    bFilter t d (l.filter (fun q =>
        ! (q.type == e.type && q.difficulty == e.difficulty) || p q))
      = bFilter t d l := by
  unfold bFilter
  rw [List.filter_filter]
  apply List.filter_congr
  intro q _
  by_cases h1 : (q.type == t && q.difficulty == d) = true
  · rw [h1]
    have h2 : q.type = t ∧ q.difficulty = d := by simpa using h1
    have h3 : ¬ (q.type = e.type ∧ q.difficulty = e.difficulty) := by
      intro hq
      exact hne ⟨hq.1 ▸ h2.1.symm ▸ rfl, hq.2 ▸ h2.2.symm ▸ rfl⟩
    rcases Decidable.not_and_iff_or_not.mp h3 with hq | hq
    · have h5 : (q.type == e.type) = false := by simpa using hq
      simp [h5]
    · have h5 : (q.difficulty == e.difficulty) = false := by simpa using hq
      simp [h5]
  · rw [Bool.not_eq_true] at h1
    rw [h1]
    simp

/-- Surplus trimming with pairwise-distinct bucket texts keeps exactly the
first `count` bucket questions. -/
lemma bFilter_trimmed {qs : List Question} {e : QDist} {l : List Question}
    (hnd : ((bFilter e.type e.difficulty qs).map (fun q => q.text)).Nodup)
    (hl : bFilter e.type e.difficulty l = bFilter e.type e.difficulty qs)
    (hcnt : e.count ≤ (bFilter e.type e.difficulty qs).length) :
    bFilter e.type e.difficulty (trimmed qs e l)
      = (bFilter e.type e.difficulty qs).take e.count := by
  unfold trimmed
  dsimp only
  have hQT : qs.filter (fun q => q.type == e.type && q.difficulty == e.difficulty)
      = bFilter e.type e.difficulty qs := rfl
  rw [hQT]
  set B := bFilter e.type e.difficulty qs with hB
  have hf1 : bFilter e.type e.difficulty (l.filter (fun q =>
      ! (q.type == e.type && q.difficulty == e.difficulty)
        || (B.take e.count).any (fun keep => keep.text == q.text)))
      = B.take e.count := by
    rw [bFilter_filter_keep, hl, filter_textmatch_take hnd hcnt]
  have hexisting :
      (l.filter (fun q =>
        ! (q.type == e.type && q.difficulty == e.difficulty)
          || (B.take e.count).any (fun keep => keep.text == q.text))).filter
        (fun q => q.type == e.type && q.difficulty == e.difficulty)
      = B.take e.count := hf1
  rw [hexisting]
  rw [if_neg (by omega)]
  exact hf1

/-- Surplus trimming does not disturb other buckets. -/
lemma bFilter_trimmed_other {qs : List Question} {e : QDist} {l : List Question}
    {t d : String} (hne : ¬ (e.type = t ∧ e.difficulty = d))
    (hl : ∀ q ∈ l, q.type = e.type) :
    bFilter t d (trimmed qs e l) = bFilter t d l := by
  unfold trimmed
  dsimp only
  have hkeep : ∀ (p : Question → Bool),
      bFilter t d
        (((qs.filter (fun q => q.type == e.type && q.difficulty == e.difficulty)).take
          e.count).filter p) = [] := by
    intro p
    apply List.filter_eq_nil.mpr
    intro q hq
    have hq2 := List.mem_of_mem_filter hq
    have hq3 := List.mem_of_mem_take hq2
    have hq4 : q.type = e.type ∧ q.difficulty = e.difficulty := by
      have := List.mem_filter.mp hq3
      constructor
      · simpa using ((Bool.and_eq_true _ _).mp this.2).1
      · simpa using ((Bool.and_eq_true _ _).mp this.2).2
    intro hb
    have hqd : q.type = t ∧ q.difficulty = d := by
      constructor
      · simpa using ((Bool.and_eq_true _ _).mp hb).1
      · simpa using ((Bool.and_eq_true _ _).mp hb).2
    exact hne ⟨hq4.1 ▸ hqd.1, hq4.2 ▸ hqd.2⟩
  split
  · rw [bFilter_append, bFilter_filter_other e l _ hne, hkeep, List.append_nil]
  · exact bFilter_filter_other e l _ hne

/-- Every question of the trimmed array comes from the array or from the
input questions. -/
lemma mem_trimmed {qs : List Question} {e : QDist} {l : List Question} {q : Question}
    (hq : q ∈ trimmed qs e l) : q ∈ l ∨ q ∈ qs := by
  unfold trimmed at hq
  dsimp only at hq
  split at hq
  · rcases List.mem_append.mp hq with h | h
    · exact Or.inl (List.mem_of_mem_filter h)
    · have h2 := List.mem_of_mem_filter h
      have h3 := List.mem_of_mem_take h2
      exact Or.inr (List.mem_of_mem_filter h3)
  · exact Or.inl (List.mem_of_mem_filter hq)

/-- Every question of the trimmed array at key `e.type` has that type. -/
lemma trimmed_types {qs : List Question} {e : QDist} {l : List Question}
    (hl : ∀ q ∈ l, q.type = e.type) :
    ∀ q ∈ trimmed qs e l, q.type = e.type := by
  intro q hq
  unfold trimmed at hq
  dsimp only at hq
  split at hq
  · rcases List.mem_append.mp hq with h | h
    · exact hl q (List.mem_of_mem_filter h)
    · have h2 := List.mem_of_mem_filter h
      have h3 := List.mem_of_mem_take h2
      have := List.mem_filter.mp h3
      simpa using ((Bool.and_eq_true _ _).mp this.2).1
  · exact hl q (List.mem_of_mem_filter hq)

/-- All questions stored under a type key have that type. -/
def OrgTypes (org : String → Option (List Question)) : Prop :=
  ∀ t q, q ∈ orgGet org t → q.type = t

/-- Every stored question either came from the input array or was
synthesized for some distribution bucket (with that bucket's exact marks). -/
def OrgProv (qs : List Question) (dist : List QDist)
    (org : String → Option (List Question)) : Prop :=
  ∀ t q, q ∈ orgGet org t →
    q ∈ qs ∨ ∃ e ∈ dist, q.type = e.type ∧ q.difficulty = e.difficulty ∧ q.marks = e.marks

lemma orgGet_update_self (org : String → Option (List Question)) (ty : String)
    (l : List Question) :
    orgGet (fun t => if t = ty then some l else org t) ty = l := by
  simp [orgGet]

lemma orgGet_update_other (org : String → Option (List Question)) (ty : String)
    (l : List Question) {t : String} (h : t ≠ ty) :
    orgGet (fun t2 => if t2 = ty then some l else org t2) t = orgGet org t := by
  simp [orgGet, h]

lemma mem_deficitNew {qs : List Question} {topic : String} {subject : Option String}
    {e : QDist} {q : Question} (hq : q ∈ deficitNew qs topic subject e) :
    q.type = e.type ∧ q.difficulty = e.difficulty ∧ q.marks = e.marks := by
  unfold deficitNew at hq
  exact synthMissing_fields _ _ _ _ _ _ q hq

lemma deficitNew_length (qs : List Question) (topic : String) (subject : Option String)
    (e : QDist) :
    (deficitNew qs topic subject e).length
      = e.count - countKey qs (bucketKey e.type e.difficulty) := by
  unfold deficitNew
  exact synthMissing_length _ _ _ _ _ _

lemma initialOrg_types (qs : List Question) : OrgTypes (initialOrg qs) := by
  intro t q hq
  rw [initialOrg_get] at hq
  simpa using (List.mem_filter.mp hq).2

lemma initialOrg_prov (qs : List Question) (dist : List QDist) :
    OrgProv qs dist (initialOrg qs) := by
  intro t q hq
  rw [initialOrg_get] at hq
  exact Or.inl (List.mem_of_mem_filter hq)

lemma orgTypes_step (qs : List Question) (topic : String) (subject : Option String)
    (org : String → Option (List Question)) (e : QDist) (hT : OrgTypes org) :
    OrgTypes (reconcileStep qs topic subject org e) := by
  unfold reconcileStep
  dsimp only
  split
  · intro t q hq
    by_cases ht : t = e.type
    · rw [ht, orgGet_update_self] at hq
      rw [ht]
      rcases List.mem_append.mp hq with h | h
      · exact hT e.type q h
      · exact (mem_deficitNew h).1
    · rw [orgGet_update_other _ _ _ ht] at hq
      exact hT t q hq
  · split
    · split
      · exact hT
      · next l heq =>
        intro t q hq
        by_cases ht : t = e.type
        · rw [ht, orgGet_update_self] at hq
          have hl : ∀ q2 ∈ l, q2.type = e.type := by
            intro q2 hq2
            apply hT e.type q2
            show q2 ∈ (org e.type).getD []
            rw [heq]
            simpa using hq2
          rw [ht]
          exact trimmed_types hl q hq
        · rw [orgGet_update_other _ _ _ ht] at hq
          exact hT t q hq
    · exact hT

lemma orgProv_step (qs : List Question) (topic : String) (subject : Option String)
    (dist : List QDist) (org : String → Option (List Question)) (e : QDist)
    (he : e ∈ dist) (hP : OrgProv qs dist org) :
    OrgProv qs dist (reconcileStep qs topic subject org e) := by
  unfold reconcileStep
  dsimp only
  split
  · intro t q hq
    by_cases ht : t = e.type
    · rw [ht, orgGet_update_self] at hq
      rcases List.mem_append.mp hq with h | h
      · exact hP e.type q h
      · obtain ⟨h1, h2, h3⟩ := mem_deficitNew h
        exact Or.inr ⟨e, he, h1, h2, h3⟩
    · rw [orgGet_update_other _ _ _ ht] at hq
      exact hP t q hq
  · split
    · split
      · exact hP
      · next l heq =>
        intro t q hq
        by_cases ht : t = e.type
        · rw [ht, orgGet_update_self] at hq
          rcases mem_trimmed hq with h | h
          · apply hP e.type q
            show q ∈ (org e.type).getD []
            rw [heq]
            simpa using h
          · exact Or.inl h
        · rw [orgGet_update_other _ _ _ ht] at hq
          exact hP t q hq
    · exact hP

lemma reconcileStep_none {qs : List Question} {topic : String} {subject : Option String}
    {org : String → Option (List Question)} {e : QDist} {t : String}
    (h : reconcileStep qs topic subject org e t = none) : org t = none := by
  unfold reconcileStep at h
  by_cases hA : countKey qs (bucketKey e.type e.difficulty) < e.count
  · rw [if_pos hA] at h
    have h2 : (if t = e.type
        then some (orgGet org e.type ++ deficitNew qs topic subject e)
        else org t) = none := h
    by_cases ht : t = e.type
    · rw [if_pos ht] at h2; simp at h2
    · rwa [if_neg ht] at h2
  · rw [if_neg hA] at h
    by_cases hB : e.count < countKey qs (bucketKey e.type e.difficulty)
    · rw [if_pos hB] at h
      cases heq : org e.type with
      | none => rw [heq] at h; exact h
      | some l =>
        rw [heq] at h
        have h2 : (if t = e.type then some (trimmed qs e l) else org t) = none := h
        by_cases ht : t = e.type
        · rw [if_pos ht] at h2; simp at h2
        · rwa [if_neg ht] at h2
    · rw [if_neg hB] at h
      exact h

lemma bFilter_assembleStep (org : String → Option (List Question))
    (acc : List Question) (t0 t d : String) :
    bFilter t d (assembleStep org acc t0)
      = bFilter t d acc ++ bFilter t d (orgGet org t0) := by
  unfold assembleStep orgGet
  cases h : org t0 with
  | none => simp [bFilter]
  | some l =>
    dsimp only
    split
    · rw [bFilter_append]
      rfl
    · next hlen =>
      have : l = [] := by
        cases l with
        | nil => rfl
        | cons a r => exact absurd (by simp) hlen
      subst this
      simp [bFilter]

lemma mem_assembleStep {org : String → Option (List Question)}
    {acc : List Question} {t0 : String} {q : Question}
    (h : q ∈ assembleStep org acc t0) : q ∈ acc ∨ q ∈ orgGet org t0 := by
  unfold assembleStep at h
  unfold orgGet
  cases heq : org t0 with
  | none => rw [heq] at h; exact Or.inl h
  | some l =>
    rw [heq] at h
    dsimp only at h
    split at h
    · rcases List.mem_append.mp h with h2 | h2
      · exact Or.inl h2
      · exact Or.inr (by simpa using h2)
    · exact Or.inl h

lemma reconcileStep_deficit_eq {qs : List Question} {topic : String}
    {subject : Option String} {org : String → Option (List Question)} {e : QDist}
    (h : countKey qs (bucketKey e.type e.difficulty) < e.count) :
    reconcileStep qs topic subject org e
      = fun t => if t = e.type
          then some (orgGet org e.type ++ deficitNew qs topic subject e)
          else org t := by
  unfold reconcileStep
  rw [if_pos h]

lemma reconcileStep_trim_eq {qs : List Question} {topic : String}
    {subject : Option String} {org : String → Option (List Question)} {e : QDist}
    {l : List Question}
    (h1 : ¬ countKey qs (bucketKey e.type e.difficulty) < e.count)
    (h2 : e.count < countKey qs (bucketKey e.type e.difficulty))
    (heq : org e.type = some l) :
    reconcileStep qs topic subject org e
      = fun t => if t = e.type then some (trimmed qs e l) else org t := by
  unfold reconcileStep
  rw [if_neg h1, if_pos h2, heq]

lemma reconcileStep_trim_none_eq {qs : List Question} {topic : String}
    {subject : Option String} {org : String → Option (List Question)} {e : QDist}
    (h1 : ¬ countKey qs (bucketKey e.type e.difficulty) < e.count)
    (h2 : e.count < countKey qs (bucketKey e.type e.difficulty))
    (heq : org e.type = none) :
    reconcileStep qs topic subject org e = org := by
  unfold reconcileStep
  rw [if_neg h1, if_pos h2, heq]

lemma reconcileStep_exact_eq {qs : List Question} {topic : String}
    {subject : Option String} {org : String → Option (List Question)} {e : QDist}
    (h1 : ¬ countKey qs (bucketKey e.type e.difficulty) < e.count)
    (h2 : ¬ e.count < countKey qs (bucketKey e.type e.difficulty)) :
    reconcileStep qs topic subject org e = org := by
  unfold reconcileStep
  rw [if_neg h1, if_neg h2]

/-- The bucket-count invariant is carried through one second-pass step. -/
lemma reconcileStep_main (qs : List Question) (topic : String) (subject : Option String)
    (org : String → Option (List Question)) (done : List QDist) (e : QDist)
    (hT : OrgTypes org)
    (hU : ∀ t d, (∀ e2 ∈ done, ¬ (e2.type = t ∧ e2.difficulty = d)) →
      bFilter t d (orgGet org t) = bFilter t d qs)
    (hC : ∀ e2 ∈ done,
      (bFilter e2.type e2.difficulty (orgGet org e2.type)).length = e2.count)
    (hN : ∀ t, org t = none → qs.filter (fun q => q.type == t) = [])
    (hty : noHyphen e.type) (hdi : noHyphen e.difficulty)
    (hnew : ∀ e2 ∈ done, ¬ (e2.type = e.type ∧ e2.difficulty = e.difficulty))
    (htx : ((bFilter e.type e.difficulty qs).map (fun q => q.text)).Nodup) :
    (∀ t d, (∀ e2 ∈ done ++ [e], ¬ (e2.type = t ∧ e2.difficulty = d)) →
      bFilter t d (orgGet (reconcileStep qs topic subject org e) t) = bFilter t d qs)
    ∧ (∀ e2 ∈ done ++ [e],
      (bFilter e2.type e2.difficulty
        (orgGet (reconcileStep qs topic subject org e) e2.type)).length = e2.count) := by
  have hcc : countKey qs (bucketKey e.type e.difficulty)
      = (bFilter e.type e.difficulty qs).length := countKey_eq_bucket hty hdi
  have hUe : bFilter e.type e.difficulty (orgGet org e.type)
      = bFilter e.type e.difficulty qs := hU e.type e.difficulty hnew
  by_cases hA : countKey qs (bucketKey e.type e.difficulty) < e.count
  · rw [reconcileStep_deficit_eq hA]
    have hdefbucket : ∀ q ∈ deficitNew qs topic subject e,
        q.type = e.type ∧ q.difficulty = e.difficulty := by
      intro q hq
      have := mem_deficitNew hq
      exact ⟨this.1, this.2.1⟩
    constructor
    · intro t d hnd2
      have hed : ¬ (e.type = t ∧ e.difficulty = d) := hnd2 e (by simp)
      by_cases ht : t = e.type
      · subst ht
        rw [orgGet_update_self, bFilter_append,
          bFilter_eq_nil_of_other_bucket hdefbucket hed, List.append_nil]
        exact hU e.type d (fun e2 he2 => hnd2 e2 (List.mem_append_left _ he2))
      · rw [orgGet_update_other _ _ _ ht]
        exact hU t d (fun e2 he2 => hnd2 e2 (List.mem_append_left _ he2))
    · intro e2 he2
      rcases List.mem_append.mp he2 with h2 | h2
      · by_cases ht : e2.type = e.type
        · rw [ht, orgGet_update_self, bFilter_append]
          have hdne : ¬ (e.type = e.type ∧ e.difficulty = e2.difficulty) := by
            intro hq
            exact hnew e2 h2 ⟨ht, hq.2.symm⟩
          rw [bFilter_eq_nil_of_other_bucket hdefbucket hdne, List.append_nil]
          have := hC e2 h2
          rw [ht] at this
          exact this
        · rw [orgGet_update_other _ _ _ ht]
          exact hC e2 h2
      · have he2e : e2 = e := by simpa using h2
        subst he2e
        rw [orgGet_update_self, bFilter_append,
          bFilter_eq_self_of_bucket hdefbucket, List.length_append, hUe]
        rw [deficitNew_length, hcc]
        rw [hcc] at hA
        omega
  · by_cases hB : e.count < countKey qs (bucketKey e.type e.difficulty)
    · cases heq : org e.type with
      | none =>
        exfalso
        have h0 := hN e.type heq
        have : bFilter e.type e.difficulty qs = [] := by
          rw [← bFilter_bFilter_type, h0]
          rfl
        rw [hcc, this] at hB
        simp at hB
      | some l =>
        rw [reconcileStep_trim_eq hA hB heq]
        have hlget : orgGet org e.type = l := by
          unfold orgGet
          rw [heq]
          rfl
        have hlb : bFilter e.type e.difficulty l = bFilter e.type e.difficulty qs := by
          rw [← hlget]
          exact hUe
        have hltypes : ∀ q ∈ l, q.type = e.type := by
          intro q hq
          apply hT e.type q
          rw [hlget]
          exact hq
        have hcntle : e.count ≤ (bFilter e.type e.difficulty qs).length := by
          rw [hcc] at hB
          omega
        constructor
        · intro t d hnd2
          have hed : ¬ (e.type = t ∧ e.difficulty = d) := hnd2 e (by simp)
          by_cases ht : t = e.type
          · subst ht
            rw [orgGet_update_self, bFilter_trimmed_other hed hltypes, ← hlget]
            exact hU e.type d (fun e2 he2 => hnd2 e2 (List.mem_append_left _ he2))
          · rw [orgGet_update_other _ _ _ ht]
            exact hU t d (fun e2 he2 => hnd2 e2 (List.mem_append_left _ he2))
        · intro e2 he2
          rcases List.mem_append.mp he2 with h2 | h2
          · by_cases ht : e2.type = e.type
            · rw [ht, orgGet_update_self]
              have hdne : ¬ (e.type = e.type ∧ e.difficulty = e2.difficulty) := by
                intro hq
                exact hnew e2 h2 ⟨ht, hq.2.symm⟩
              rw [bFilter_trimmed_other hdne hltypes]
              have := hC e2 h2
              rw [ht, hlget] at this
              exact this
            · rw [orgGet_update_other _ _ _ ht]
              exact hC e2 h2
          · have he2e : e2 = e := by simpa using h2
            subst he2e
            rw [orgGet_update_self, bFilter_trimmed htx hlb hcntle,
              List.length_take]
            omega
    · rw [reconcileStep_exact_eq hA hB]
      constructor
      · intro t d hnd2
        exact hU t d (fun e2 he2 => hnd2 e2 (List.mem_append_left _ he2))
      · intro e2 he2
        rcases List.mem_append.mp he2 with h2 | h2
        · exact hC e2 h2
        · have he2e : e2 = e := by simpa using h2
          subst he2e
          rw [hUe]
          rw [hcc] at hA hB
          omega

/-- Light fold invariant: types and provenance through the whole second
pass. -/
lemma reconcileFold_light (qs : List Question) (topic : String)
    (subject : Option String) (dist : List QDist) :
    ∀ (es : List QDist) (org : String → Option (List Question)),
      (∀ e ∈ es, e ∈ dist) → OrgTypes org → OrgProv qs dist org →
      OrgTypes (es.foldl (reconcileStep qs topic subject) org)
      ∧ OrgProv qs dist (es.foldl (reconcileStep qs topic subject) org) := by
  intro es
  induction es with
  | nil => intro org _ hT hP; exact ⟨hT, hP⟩
  | cons e tail ih =>
    intro org hes hT hP
    rw [List.foldl_cons]
    exact ih (reconcileStep qs topic subject org e)
      (fun e2 he2 => hes e2 (List.mem_cons_of_mem _ he2))
      (orgTypes_step qs topic subject org e hT)
      (orgProv_step qs topic subject dist org e (hes e (List.mem_cons_self _ _)) hP)

/-- Bucket-count fold invariant through the whole second pass. -/
lemma reconcileFold_main (qs : List Question) (topic : String)
    (subject : Option String) :
    ∀ (es done : List QDist) (org : String → Option (List Question)),
      OrgTypes org →
      (∀ t d, (∀ e2 ∈ done, ¬ (e2.type = t ∧ e2.difficulty = d)) →
        bFilter t d (orgGet org t) = bFilter t d qs) →
      (∀ e2 ∈ done,
        (bFilter e2.type e2.difficulty (orgGet org e2.type)).length = e2.count) →
      (∀ t, org t = none → qs.filter (fun q => q.type == t) = []) →
      (∀ e ∈ es, noHyphen e.type ∧ noHyphen e.difficulty
        ∧ ((bFilter e.type e.difficulty qs).map (fun q => q.text)).Nodup) →
      (((done ++ es).map (fun e => (e.type, e.difficulty))).Nodup) →
      (∀ t d, (∀ e2 ∈ done ++ es, ¬ (e2.type = t ∧ e2.difficulty = d)) →
        bFilter t d (orgGet (es.foldl (reconcileStep qs topic subject) org) t)
          = bFilter t d qs)
      ∧ (∀ e2 ∈ done ++ es,
        (bFilter e2.type e2.difficulty
          (orgGet (es.foldl (reconcileStep qs topic subject) org) e2.type)).length
          = e2.count) := by
  intro es
  induction es with
  | nil =>
    intro done org _ hU hC _ _ _
    rw [List.append_nil]
    exact ⟨hU, hC⟩
  | cons e tail ih =>
    intro done org hT hU hC hN hes hnd
    have hnew : ∀ e2 ∈ done, ¬ (e2.type = e.type ∧ e2.difficulty = e.difficulty) := by
      intro e2 he2 hq
      have hmap : (done.map (fun e => (e.type, e.difficulty))).Disjoint
          ((e :: tail).map (fun e => (e.type, e.difficulty))) := by
        rw [List.map_append] at hnd
        exact (List.nodup_append.mp hnd).2.2
      apply hmap (List.mem_map_of_mem _ he2)
      have : (e2.type, e2.difficulty) = (e.type, e.difficulty) := by
        rw [hq.1, hq.2]
      rw [this]
      exact List.mem_map_of_mem _ (List.mem_cons_self _ _)
    have hehd := hes e (List.mem_cons_self _ _)
    have hstep := reconcileStep_main qs topic subject org done e hT hU hC hN
      hehd.1 hehd.2.1 hnew hehd.2.2
    have hT2 := orgTypes_step qs topic subject org e hT
    have hN2 : ∀ t, reconcileStep qs topic subject org e t = none →
        qs.filter (fun q => q.type == t) = [] :=
      fun t h => hN t (reconcileStep_none h)
    have hassoc : done ++ e :: tail = (done ++ [e]) ++ tail := by
      simp
    rw [List.foldl_cons, hassoc]
    apply ih (done ++ [e]) (reconcileStep qs topic subject org e) hT2
      hstep.1 hstep.2 hN2
      (fun e2 he2 => hes e2 (List.mem_cons_of_mem _ he2))
    rw [← hassoc]
    exact hnd

lemma typeOrder_nodup : typeOrder.Nodup := by decide

lemma bFilter_orgGet_ne {org : String → Option (List Question)}
    (hT : OrgTypes org) {t t2 d : String} (h : t2 ≠ t) :
    bFilter t d (orgGet org t2) = [] :=
  bFilter_eq_nil_of_types (fun q hq => hT t2 q hq) h

lemma bFilter_assemble_fold_not (org : String → Option (List Question))
    (hT : OrgTypes org) (d : String) :
    ∀ (ts : List String) (acc : List Question) (t : String), t ∉ ts →
      bFilter t d (ts.foldl (assembleStep org) acc) = bFilter t d acc := by
  intro ts
  induction ts with
  | nil => intro acc t _; rfl
  | cons t0 rest ih =>
    intro acc t hnot
    have hne : t0 ≠ t := by
      intro h
      exact hnot (by rw [← h]; exact List.mem_cons_self _ _)
    rw [List.foldl_cons, ih (assembleStep org acc t0) t (fun h => hnot (List.mem_cons_of_mem _ h)),
      bFilter_assembleStep, bFilter_orgGet_ne hT hne, List.append_nil]

lemma bFilter_assemble_fold_mem (org : String → Option (List Question))
    (hT : OrgTypes org) (d : String) :
    ∀ (ts : List String) (acc : List Question) (t : String), ts.Nodup → t ∈ ts →
      bFilter t d (ts.foldl (assembleStep org) acc)
        = bFilter t d acc ++ bFilter t d (orgGet org t) := by
  intro ts
  induction ts with
  | nil => intro acc t _ hmem; simp at hmem
  | cons t0 rest ih =>
    intro acc t hnd hmem
    rw [List.foldl_cons]
    rcases List.mem_cons.mp hmem with h1 | hmem2
    · rw [h1]
      rw [bFilter_assemble_fold_not org hT d rest _ t0 (List.nodup_cons.mp hnd).1,
        bFilter_assembleStep]
    · have hne : t0 ≠ t := by
        intro h
        exact (List.nodup_cons.mp hnd).1 (by rw [h]; exact hmem2)
      rw [ih (assembleStep org acc t0) t (List.nodup_cons.mp hnd).2 hmem2,
        bFilter_assembleStep, bFilter_orgGet_ne hT hne, List.append_nil]

lemma bFilter_assembleFinal (org : String → Option (List Question))
    (hT : OrgTypes org) {t : String} (ht : t ∈ typeOrder) (d : String) :
    bFilter t d (assembleFinal org) = bFilter t d (orgGet org t) := by
  unfold assembleFinal
  rw [bFilter_assemble_fold_mem org hT d typeOrder [] t typeOrder_nodup ht,
    show bFilter t d [] = [] from rfl, List.nil_append]

lemma mem_assemble_fold {org : String → Option (List Question)} :
    ∀ (ts : List String) (acc : List Question) (q : Question),
      q ∈ ts.foldl (assembleStep org) acc → q ∈ acc ∨ ∃ t ∈ ts, q ∈ orgGet org t := by
  intro ts
  induction ts with
  | nil => intro acc q h; exact Or.inl h
  | cons t0 rest ih =>
    intro acc q h
    rw [List.foldl_cons] at h
    rcases ih (assembleStep org acc t0) q h with h2 | ⟨t, htm, h2⟩
    · rcases mem_assembleStep h2 with h3 | h3
      · exact Or.inl h3
      · exact Or.inr ⟨t0, List.mem_cons_self _ _, h3⟩
    · exact Or.inr ⟨t, List.mem_cons_of_mem _ htm, h2⟩

lemma mem_ensureQuestionCount {qs : List Question} {dist : List QDist} {topic : String}
    {subject : Option String} {q : Question}
    (h : q ∈ ensureQuestionCount qs dist topic subject) :
    ∃ t ∈ typeOrder, q ∈ orgGet (reconcileAll qs dist topic subject) t := by
  unfold ensureQuestionCount assembleFinal at h
  rcases mem_assemble_fold typeOrder [] q h with h2 | h2
  · simp at h2
  · exact h2

lemma reconcileAll_types (qs : List Question) (dist : List QDist) (topic : String)
    (subject : Option String) : OrgTypes (reconcileAll qs dist topic subject) :=
  (reconcileFold_light qs topic subject dist dist (initialOrg qs) (fun _ he => he)
    (initialOrg_types qs) (initialOrg_prov qs dist)).1

lemma reconcileAll_prov (qs : List Question) (dist : List QDist) (topic : String)
    (subject : Option String) : OrgProv qs dist (reconcileAll qs dist topic subject) :=
  (reconcileFold_light qs topic subject dist dist (initialOrg qs) (fun _ he => he)
    (initialOrg_types qs) (initialOrg_prov qs dist)).2

/-!
### C10 — unrecognized types are preserved by the normalizer but silently
dropped by the reconciler
-/

/-- C10: the normalizer keeps any non-empty type string unchanged (it only
defaults a missing/empty one to mcq); every question returned by the
reconciler carries one of the seven known types, so an input question with
an unrecognized type never appears in the reconciler's output. -/
theorem c10_unknown_types_dropped :
    (∀ (question : RawQuestion) (topic : String) (t : String),
        question.type = some t → t ≠ "" → (processOne question topic).type = t)
    ∧ (∀ (qs : List Question) (dist : List QDist) (topic : String)
        (subject : Option String) (q : Question),
        q ∈ ensureQuestionCount qs dist topic subject → q.type ∈ typeOrder)
    ∧ (∀ (qs : List Question) (dist : List QDist) (topic : String)
        (subject : Option String) (q : Question),
        q ∈ qs → q.type ∉ typeOrder → q ∉ ensureQuestionCount qs dist topic subject) := by
  have part2 : ∀ (qs : List Question) (dist : List QDist) (topic : String)
      (subject : Option String) (q : Question),
      q ∈ ensureQuestionCount qs dist topic subject → q.type ∈ typeOrder := by
    intro qs dist topic subject q h
    rcases mem_ensureQuestionCount h with ⟨t, htm, h2⟩
    rw [reconcileAll_types qs dist topic subject t q h2]
    exact htm
  refine ⟨?_, part2, ?_⟩
  · intro question topic t hq ht
    rw [processOne_type]
    rw [hq]
    exact strOr_of_ne _ ht
  · intro qs dist topic subject q _ hnot hmem
    exact hnot (part2 qs dist topic subject q hmem)

/-- A concrete question with a type outside the seven known ones. -/
def essayQ : Question :=
  { text := "Write an essay.", type := "essay", difficulty := "easy",
    marks := some 5, topic := "T" }

/-- C10 witness: type preservation and silent omission at concrete inputs. -/
theorem c10_unknown_types_dropped_witness :
    (processOne { type := some "essay" } "T").type = "essay"
    ∧ essayQ ∉ ensureQuestionCount [essayQ] [] "T" none := by
  refine ⟨c10_unknown_types_dropped.1 { type := some "essay" } "T" "essay" rfl (by decide), ?_⟩
  exact c10_unknown_types_dropped.2.2 [essayQ] [] "T" none essayQ
    (List.mem_singleton.mpr rfl) (by decide)

/-!
### C2 — bucket marks
-/

/-- C2 (amended): only *synthesized* questions are forced to the bucket's
requested marks; every question in the reconciler's output that was not
already in the input array was synthesized for some distribution bucket and
carries exactly that bucket's marks.  Model-delivered questions keep the
marks the normalizer gave them, which may differ from the bucket's
requested marks. -/
theorem c2_synthesized_marks (qs : List Question) (dist : List QDist) (topic : String)
    (subject : Option String) (q : Question)
    (hmem : q ∈ ensureQuestionCount qs dist topic subject) (hnotin : q ∉ qs) :
    ∃ e ∈ dist, q.type = e.type ∧ q.difficulty = e.difficulty ∧ q.marks = e.marks := by
  rcases mem_ensureQuestionCount hmem with ⟨t, _, h2⟩
  rcases reconcileAll_prov qs dist topic subject t q h2 with h3 | h3
  · exact absurd h3 hnotin
  · exact h3

/-- A model-delivered mcq/easy question carrying marks 5. -/
def marks5Q : Question :=
  { text := "a", type := "mcq", difficulty := "easy", marks := some 5, topic := "T",
    options := some ["a", "b", "c", "d"], correctAnswer := some "a" }

/-- C2 counterexample: with the bucket `(mcq, easy)` requesting marks 2 and
a model-delivered question of that bucket carrying marks 5, the reconciler
returns the question with marks 5 — marks of model-delivered questions are
never rewritten. -/
theorem c2_counterexample :
    (ensureQuestionCount [marks5Q] [⟨"mcq", "easy", 1, some 2⟩] "T" none).map
        (fun q => q.marks) = [some 5]
    ∧ (some 5 : Option Nat) ≠ some 2 := by
  decide

/-- C2 witness: the amended theorem applied to a concrete synthesized
question. -/
theorem c2_synthesized_marks_witness :
    ∃ e ∈ [(⟨"hots", "hard", 1, some 10⟩ : QDist)],
      (⟨"Answer the following question about this concept.", "hots", "hard",
        some 10, "T", none, none, none, none, none⟩ : Question).type = e.type
      ∧ (⟨"Answer the following question about this concept.", "hots", "hard",
        some 10, "T", none, none, none, none, none⟩ : Question).difficulty = e.difficulty
      ∧ (⟨"Answer the following question about this concept.", "hots", "hard",
        some 10, "T", none, none, none, none, none⟩ : Question).marks = e.marks :=
  c2_synthesized_marks [] [⟨"hots", "hard", 1, some 10⟩] "T" none
    ⟨"Answer the following question about this concept.", "hots", "hard",
      some 10, "T", none, none, none, none, none⟩ (by decide) (by decide)

/-!
### C1 — bucket counts
-/

/-- A medium-marks mcq/easy question used by the concrete scenarios. -/
def mcqEasyQ (s : String) : Question :=
  { text := s, type := "mcq", difficulty := "easy", marks := some 2, topic := "T",
    options := some ["a", "b", "c", "d"], correctAnswer := some "a" }

/-- Six mcq/easy questions with pairwise distinct texts. -/
def sixDistinct : List Question :=
  [mcqEasyQ "q1", mcqEasyQ "q2", mcqEasyQ "q3", mcqEasyQ "q4", mcqEasyQ "q5", mcqEasyQ "q6"]

/-- Six mcq/easy questions all sharing the text "x". -/
def sixSame : List Question := List.replicate 6 (mcqEasyQ "x")

/-- A distribution bucket requesting 4 mcq/easy questions of 2 marks. -/
def d4 : QDist := ⟨"mcq", "easy", 4, some 2⟩

/-- A model-delivered question in a bucket the distribution does not mention. -/
def shortEasyQ : Question :=
  { text := "s1", type := "short", difficulty := "easy", marks := some 4, topic := "T" }

/-- C1 (amended): for distributions whose buckets use the seven known types
and three known difficulties, name each `(type, difficulty)` pair at most
once, and whose buckets contain no duplicate question texts in the input,
the reconciler makes every *requested* bucket's count match exactly; but a
known-type bucket that the distribution does not mention keeps whatever
questions the input had there (the original claim's "zero for every pair
not in the distribution" is false, see the counterexample). -/
theorem c1_distribution_counts (qs : List Question) (dist : List QDist)
    (topic : String) (subject : Option String)
    (hty : ∀ e ∈ dist, e.type ∈ typeOrder)
    (hdi : ∀ e ∈ dist, e.difficulty ∈ difficultyNames)
    (hnd : (dist.map (fun e => (e.type, e.difficulty))).Nodup)
    (htx : ∀ e ∈ dist,
      ((bFilter e.type e.difficulty qs).map (fun q => q.text)).Nodup) :
    (∀ e ∈ dist,
      bucketCount (ensureQuestionCount qs dist topic subject) e.type e.difficulty
        = e.count)
    ∧ (∀ t d, t ∈ typeOrder →
        (∀ e ∈ dist, ¬ (e.type = t ∧ e.difficulty = d)) →
        bucketCount (ensureQuestionCount qs dist topic subject) t d
          = bucketCount qs t d) := by
  have hfold := reconcileFold_main qs topic subject dist [] (initialOrg qs)
    (initialOrg_types qs)
    (fun t d _ => by rw [initialOrg_get, bFilter_bFilter_type])
    (by intro e2 h; simp at h)
    (fun t h => initialOrg_none h)
    (fun e he => ⟨mem_typeOrder_noHyphen (hty e he),
      mem_difficultyNames_noHyphen (hdi e he), htx e he⟩)
    (by simpa using hnd)
  rw [List.nil_append] at hfold
  have hre : dist.foldl (reconcileStep qs topic subject) (initialOrg qs)
      = reconcileAll qs dist topic subject := rfl
  rw [hre] at hfold
  have hT := reconcileAll_types qs dist topic subject
  constructor
  · intro e he
    unfold bucketCount ensureQuestionCount
    rw [bFilter_assembleFinal _ hT (hty e he)]
    exact hfold.2 e he
  · intro t d ht hnone
    unfold bucketCount ensureQuestionCount
    rw [bFilter_assembleFinal _ hT ht, hfold.1 t d hnone]

/-- C1 counterexample: a short/easy question survives reconciliation even
though the distribution only mentions the mcq/easy bucket, so the pair
`(short, easy)` — absent from the distribution — ends with count 1,
not 0. -/
theorem c1_counterexample :
    bucketCount (ensureQuestionCount [shortEasyQ] [⟨"mcq", "easy", 1, some 2⟩] "T" none)
        "short" "easy" = 1
    ∧ (∀ e ∈ [(⟨"mcq", "easy", 1, some 2⟩ : QDist)],
        ¬ (e.type = "short" ∧ e.difficulty = "easy")) := by
  decide

/-- C1 witness: the amended theorem at a concrete surplus + deficit
scenario. -/
theorem c1_distribution_counts_witness :
    bucketCount
        (ensureQuestionCount sixDistinct [d4, ⟨"hots", "hard", 2, some 10⟩] "T" none)
        d4.type d4.difficulty = d4.count
    ∧ bucketCount
        (ensureQuestionCount sixDistinct [d4, ⟨"hots", "hard", 2, some 10⟩] "T" none)
        "hots" "hard" = 2 := by
  have h := c1_distribution_counts sixDistinct [d4, ⟨"hots", "hard", 2, some 10⟩]
    "T" none (by decide) (by decide) (by decide) (by decide)
  exact ⟨h.1 d4 (List.mem_cons_self _ _),
    h.1 ⟨"hots", "hard", 2, some 10⟩ (by decide)⟩

/-!
### C6 — surplus trimming
-/

/-- C6 (amended): surplus trimming keeps exactly the first `count` questions
of the bucket in stable input order *provided the texts in that bucket are
pairwise distinct* — the source trims by text equality
(`toKeep.some(keep => keep.text === q.text)`), so duplicate texts defeat
trimming entirely (see the counterexample). -/
theorem c6_surplus_trim (qs : List Question) (e : QDist) (topic : String)
    (subject : Option String)
    (ht : e.type ∈ typeOrder) (hd : e.difficulty ∈ difficultyNames)
    (hnd : ((bFilter e.type e.difficulty qs).map (fun q => q.text)).Nodup)
    (hge : e.count ≤ (bFilter e.type e.difficulty qs).length) :
    bFilter e.type e.difficulty (ensureQuestionCount qs [e] topic subject)
      = (bFilter e.type e.difficulty qs).take e.count := by
  have hty := mem_typeOrder_noHyphen ht
  have hdi := mem_difficultyNames_noHyphen hd
  have hcc : countKey qs (bucketKey e.type e.difficulty)
      = (bFilter e.type e.difficulty qs).length := countKey_eq_bucket hty hdi
  have hT := reconcileAll_types qs [e] topic subject
  have hre : reconcileAll qs [e] topic subject
      = reconcileStep qs topic subject (initialOrg qs) e := rfl
  unfold ensureQuestionCount
  rw [bFilter_assembleFinal _ hT ht, hre]
  by_cases hA : countKey qs (bucketKey e.type e.difficulty) < e.count
  · exfalso
    rw [hcc] at hA
    omega
  by_cases hB : e.count < countKey qs (bucketKey e.type e.difficulty)
  · cases heq : initialOrg qs e.type with
    | none =>
      exfalso
      have h0 := initialOrg_none heq
      have hnil : bFilter e.type e.difficulty qs = [] := by
        rw [← bFilter_bFilter_type qs, h0]
        rfl
      rw [hcc, hnil] at hB
      exact Nat.not_lt_zero _ hB
    | some l =>
      rw [reconcileStep_trim_eq hA hB heq, orgGet_update_self]
      have hl2 : l = qs.filter (fun q => q.type == e.type) := by
        have hog : orgGet (initialOrg qs) e.type = l := by
          unfold orgGet
          rw [heq]
          rfl
        rw [← hog, initialOrg_get]
      apply bFilter_trimmed hnd ?_ hge
      rw [hl2, bFilter_bFilter_type]
  · rw [reconcileStep_exact_eq hA hB, initialOrg_get, bFilter_bFilter_type]
    have hle : e.count = (bFilter e.type e.difficulty qs).length := by omega
    rw [hle, List.take_length]

/-- C6 counterexample: six mcq/easy questions all titled "x" against a
request for 4 — text-based trimming keeps all six, so the bucket count is
6, not 4. -/
theorem c6_counterexample :
    bucketCount (ensureQuestionCount sixSame [d4] "T" none) "mcq" "easy" = 6
    ∧ d4.count = 4 := by
  decide

/-- C6 witness: with six distinct texts the first four are kept in input
order. -/
theorem c6_surplus_trim_witness :
    bFilter d4.type d4.difficulty (ensureQuestionCount sixDistinct [d4] "T" none)
      = (bFilter d4.type d4.difficulty sixDistinct).take d4.count :=
  c6_surplus_trim sixDistinct d4 "T" none (by decide) (by decide) (by decide) (by decide)

/-!
### C9 — mismatch warnings are non-fatal
-/

/-- C9: the reconciler is total — it always returns the assembled
best-effort list, and the final verification pass only produces warning
records: `distributionWarnings` is empty exactly when every requested
bucket count is met, and in a concrete mismatch scenario (six same-text
mcq/easy questions against a request for 4) a warning is produced while
the six questions are still returned. -/
theorem c9_mismatch_nonfatal :
    (∀ (qs : List Question) (dist : List QDist) (topic : String)
        (subject : Option String),
      distributionWarnings (ensureQuestionCount qs dist topic subject) dist = []
        ↔ ∀ e ∈ dist,
            bucketCount (ensureQuestionCount qs dist topic subject) e.type e.difficulty
              = e.count)
    ∧ distributionWarnings (ensureQuestionCount sixSame [d4] "T" none) [d4] ≠ []
    ∧ (ensureQuestionCount sixSame [d4] "T" none).length = 6 := by
  refine ⟨?_, by decide, by decide⟩
  intro qs dist topic subject
  unfold distributionWarnings bucketCount bFilter
  rw [List.filter_eq_nil]
  constructor
  · intro h e he
    have h2 := h _ (List.mem_map_of_mem _ he)
    simpa [bne_iff_ne] using h2
  · intro h p hp
    rcases List.mem_map.mp hp with ⟨e, he, rfl⟩
    have h2 := h e he
    simpa [bne_iff_ne] using h2



/-!
### C8 — extraction round trip

The development below proves that the canonical serialization of a
well-formed JSON object survives the fenced-code-block extraction pipeline
(`cleanJsonResponse`, brace slice, `JSON.parse`), provided the serialized
text contains no backtick — the counterexample shows that a backtick fence
inside a string value breaks the lazy fence capture.
-/

/-- The backtick character. -/
def btick : Char := Char.ofNat 96




-- decimal rendering facts
lemma digitChar_facts (d : Nat) (h : d < 10) :
    (digitChar d).isDigit = true ∧ (digitChar d).toNat = 48 + d
    ∧ (digitChar d).isWhitespace = false
    ∧ digitChar d ≠ ']' ∧ digitChar d ≠ '}'
    ∧ digitChar d ≠ '{' ∧ digitChar d ≠ '[' ∧ digitChar d ≠ '"'
    ∧ digitChar d ≠ 't' ∧ digitChar d ≠ 'f' ∧ digitChar d ≠ 'n'
    ∧ digitChar d ≠ '-' := by
  interval_cases d <;> exact ⟨rfl, rfl, rfl, by decide, by decide, by decide, by decide,
    by decide, by decide, by decide, by decide, by decide⟩

def noDigitHead : List Char → Bool
  | [] => true
  | c :: _ => !c.isDigit

lemma natToCharsAux_ne_nil : ∀ f n, n < f → natToCharsAux f n ≠ [] := by
  intro f
  induction f with
  | zero => intro n h; omega
  | succ f ih =>
    intro n _
    unfold natToCharsAux
    split
    · simp
    · simp

lemma natToCharsAux_head : ∀ f n, n < f →
    ∃ d r, d < 10 ∧ natToCharsAux f n = digitChar d :: r := by
  intro f
  induction f with
  | zero => intro n h; omega
  | succ f ih =>
    intro n hn
    unfold natToCharsAux
    split
    · next h => exact ⟨n, [], h, rfl⟩
    · next h =>
      have h10 : 10 ≤ n := Nat.le_of_not_lt h
      have hlt : n / 10 < f := by omega
      rcases ih (n / 10) hlt with ⟨d, r, hd, hr⟩
      exact ⟨d, r ++ [digitChar (n % 10)], hd, by rw [hr]; rfl⟩

lemma parseDigits_noDigit {rest : List Char} (acc : Nat) (h : noDigitHead rest = true) :
    parseDigits acc rest = (acc, rest) := by
  cases rest with
  | nil => rfl
  | cons c r =>
    have hc : c.isDigit = false := by
      have : (!c.isDigit) = true := h
      simpa using this
    unfold parseDigits
    rw [if_neg (by simp [hc])]

lemma natToCharsAux_succ (f n : Nat) :
    natToCharsAux (f+1) n
      = if n < 10 then [digitChar n]
        else natToCharsAux f (n / 10) ++ [digitChar (n % 10)] := rfl

lemma parseDigits_cons_digit {c : Char} (h : c.isDigit = true) (acc : Nat) (l : List Char) :
    parseDigits acc (c :: l) = parseDigits (acc * 10 + (c.toNat - 48)) l := by
  unfold parseDigits
  rw [if_pos h]
  cases l <;> rfl

lemma parseDigits_aux : ∀ f n acc rest, n < f →
    parseDigits acc (natToCharsAux f n ++ rest)
      = parseDigits (acc * 10 ^ (natToCharsAux f n).length + n) rest := by
  intro f
  induction f with
  | zero => intro n acc rest h; omega
  | succ f ih =>
    intro n acc rest hn
    by_cases h : n < 10
    · have hf := digitChar_facts n h
      rw [natToCharsAux_succ, if_pos h]
      rw [show [digitChar n] ++ rest = digitChar n :: rest from rfl]
      rw [parseDigits_cons_digit hf.1 acc rest, hf.2.1]
      congr 1
      have h48 : 48 + n - 48 = n := by omega
      rw [h48]
      simp
    · have h10 : 10 ≤ n := Nat.le_of_not_lt h
      have hlt : n / 10 < f := by omega
      have hmod : n % 10 < 10 := Nat.mod_lt n (by omega)
      have hf := digitChar_facts (n % 10) hmod
      rw [natToCharsAux_succ, if_neg h]
      rw [List.append_assoc, List.singleton_append]
      rw [ih (n / 10) acc (digitChar (n % 10) :: rest) hlt]
      rw [parseDigits_cons_digit hf.1 _ rest, hf.2.1]
      congr 1
      simp only [List.length_append, List.length_cons, List.length_nil]
      rw [pow_succ]
      have hdm : n = 10 * (n / 10) + n % 10 := (Nat.div_add_mod n 10).symm
      have hmm : 48 + n % 10 - 48 = n % 10 := by omega
      rw [hmm]
      ring_nf
      omega

lemma parseNatChars_round (n : Nat) {rest : List Char} (hr : noDigitHead rest = true) :
    parseNatChars (natToChars n ++ rest) = some (n, rest) := by
  rcases natToCharsAux_head (n+1) n (Nat.lt_succ_self n) with ⟨d, r, hd, hrr⟩
  unfold natToChars
  rw [hrr]
  show parseNatChars (digitChar d :: (r ++ rest)) = some (n, rest)
  unfold parseNatChars
  dsimp only
  rw [if_pos (by simp [(digitChar_facts d hd).1])]
  rw [show digitChar d :: (r ++ rest) = (digitChar d :: r) ++ rest from rfl, ← hrr]
  rw [parseDigits_aux (n+1) n 0 rest (Nat.lt_succ_self n)]
  rw [parseDigits_noDigit _ hr]
  simp

-- string round trip
lemma parseStr_round : ∀ (cs : List Char), (∀ c ∈ cs, 32 ≤ c.toNat) → ∀ rest,
    parseStrChars (escapeChars cs ++ '\"' :: rest) = some (cs, rest) := by
  intro cs
  induction cs with
  | nil =>
    intro _ rest
    show parseStrChars ('\"' :: rest) = some ([], rest)
    unfold parseStrChars
    rw [if_pos rfl]
  | cons c r ih =>
    intro h rest
    have hc := h c (List.mem_cons_self _ _)
    have hr := ih (fun d hd => h d (List.mem_cons_of_mem _ hd)) rest
    show parseStrChars ((escapeChar c ++ escapeChars r) ++ '\"' :: rest) = some (c :: r, rest)
    rw [List.append_assoc]
    by_cases h1 : c = '\"'
    · rw [show escapeChar c = ['\\', '\"'] by unfold escapeChar; rw [if_pos h1]]
      show parseStrChars ('\\' :: '\"' :: (escapeChars r ++ '\"' :: rest)) = _
      unfold parseStrChars
      rw [if_neg (by decide), if_pos rfl]
      dsimp only
      rw [show unescapeChar '\"' = some '\"' from rfl]
      dsimp only
      rw [hr, h1]
    · by_cases h2 : c = '\\'
      · rw [show escapeChar c = ['\\', '\\'] by unfold escapeChar; rw [if_neg h1, if_pos h2]]
        show parseStrChars ('\\' :: '\\' :: (escapeChars r ++ '\"' :: rest)) = _
        unfold parseStrChars
        rw [if_neg (by decide), if_pos rfl]
        dsimp only
        rw [show unescapeChar '\\' = some '\\' from rfl]
        dsimp only
        rw [hr, h2]
      · rw [show escapeChar c = [c] by unfold escapeChar; rw [if_neg h1, if_neg h2]]
        show parseStrChars (c :: (escapeChars r ++ '\"' :: rest)) = _
        unfold parseStrChars
        rw [if_neg h1, if_neg h2, if_neg (by omega)]
        rw [hr]


lemma skipWs_cons {c : Char} (r : List Char) (h : c.isWhitespace = false) :
    skipWs (c :: r) = c :: r := by
  unfold skipWs
  rw [List.dropWhile_cons, if_neg (by simp [h])]

lemma renderV_cons : ∀ v : Json, ∃ c r, renderV v = c :: r
    ∧ c.isWhitespace = false ∧ c ≠ ']' := by
  intro v
  cases v with
  | null => exact ⟨'n', _, rfl, by decide, by decide⟩
  | bool b => cases b with
    | true => exact ⟨'t', _, rfl, by decide, by decide⟩
    | false => exact ⟨'f', _, rfl, by decide, by decide⟩
  | num i => cases i with
    | ofNat m =>
      rcases natToCharsAux_head (m+1) m (Nat.lt_succ_self m) with ⟨d, r, hd, hr⟩
      have hf := digitChar_facts d hd
      exact ⟨digitChar d, r, hr, hf.2.2.1, hf.2.2.2.1⟩
    | negSucc m => exact ⟨'-', _, rfl, by decide, by decide⟩
  | str s => exact ⟨'\"', _, rfl, by decide, by decide⟩
  | arr xs => cases xs with
    | nil => exact ⟨'[', _, rfl, by decide, by decide⟩
    | cons v tl => exact ⟨'[', _, rfl, by decide, by decide⟩
  | obj kvs => cases kvs with
    | nil => exact ⟨'{', _, rfl, by decide, by decide⟩
    | cons k v tl => exact ⟨'{', _, rfl, by decide, by decide⟩

lemma renderO_head : ∀ (k : String) (v : Json) (tl : JsonObj),
    ∃ m, renderO (.cons k v tl) = '\"' :: m := by
  intro k v tl
  cases tl with
  | nil => exact ⟨_, rfl⟩
  | cons k2 w tl2 => exact ⟨_, rfl⟩

lemma jsizeV_pos (v : Json) : 1 ≤ jsizeV v := by
  cases v <;> (unfold jsizeV) <;> omega

lemma jsizeL_pos {xs : JsonList} (h : xs ≠ .nil) : 1 ≤ jsizeL xs := by
  cases xs with
  | nil => exact absurd rfl h
  | cons v tl => unfold jsizeL; omega

lemma jsizeO_pos {kvs : JsonObj} (h : kvs ≠ .nil) : 1 ≤ jsizeO kvs := by
  cases kvs with
  | nil => exact absurd rfl h
  | cons k v tl => unfold jsizeO; omega

-- jsize bound, mutual theorems
mutual
theorem jsizeV_le : ∀ v : Json, jsizeV v ≤ (renderV v).length
  | .null => by decide
  | .bool true => by decide
  | .bool false => by decide
  | .num (Int.ofNat m) => by
    show 1 ≤ (natToChars m).length
    exact List.length_pos.mpr (natToCharsAux_ne_nil (m + 1) m (Nat.lt_succ_self m))
  | .num (Int.negSucc m) => by
    show 1 ≤ ('-' :: natToChars (m+1)).length
    simp
  | .str s => by
    show 1 ≤ ('"' :: (escapeChars s.data ++ ['"'])).length
    simp
  | .arr .nil => by decide
  | .arr (.cons v tl) => by
    have h := jsizeL_le (.cons v tl)
    show 1 + jsizeL (.cons v tl) ≤ ('[' :: (renderL (.cons v tl) ++ [']'])).length
    simp only [List.length_cons, List.length_append]
    omega
  | .obj .nil => by decide
  | .obj (.cons k v tl) => by
    have h := jsizeO_le (.cons k v tl)
    show 1 + jsizeO (.cons k v tl) ≤ ('{' :: (renderO (.cons k v tl) ++ ['}'])).length
    simp only [List.length_cons, List.length_append]
    omega

theorem jsizeL_le : ∀ xs : JsonList, jsizeL xs ≤ (renderL xs).length + 1
  | .nil => by decide
  | .cons v .nil => by
    have h := jsizeV_le v
    show 1 + jsizeV v + jsizeL .nil ≤ (renderV v).length + 1
    show 1 + jsizeV v + 0 ≤ (renderV v).length + 1
    omega
  | .cons v (.cons w tl) => by
    have h1 := jsizeV_le v
    have h2 := jsizeL_le (.cons w tl)
    show 1 + jsizeV v + jsizeL (.cons w tl)
      ≤ (renderV v ++ ',' :: renderL (.cons w tl)).length + 1
    simp only [List.length_append, List.length_cons]
    omega

theorem jsizeO_le : ∀ kvs : JsonObj, jsizeO kvs ≤ (renderO kvs).length + 1
  | .nil => by decide
  | .cons k v .nil => by
    have h := jsizeV_le v
    show 1 + jsizeV v + jsizeO .nil ≤ ('"' :: (escapeChars k.data ++ '"' :: ':' :: renderV v)).length + 1
    show 1 + jsizeV v + 0 ≤ ('"' :: (escapeChars k.data ++ '"' :: ':' :: renderV v)).length + 1
    simp only [List.length_cons, List.length_append]
    omega
  | .cons k v (.cons k2 w tl) => by
    have h1 := jsizeV_le v
    have h2 := jsizeO_le (.cons k2 w tl)
    show 1 + jsizeV v + jsizeO (.cons k2 w tl)
      ≤ (('"' :: (escapeChars k.data ++ '"' :: ':' :: renderV v)) ++ ',' :: renderO (.cons k2 w tl)).length + 1
    simp only [List.length_cons, List.length_append]
    omega
end


lemma parse_round : ∀ fuel : Nat,
    (∀ v rest, wfV v = true → jsizeV v ≤ fuel → noDigitHead rest = true →
      parseVal fuel (renderV v ++ rest) = some (v, rest))
    ∧ (∀ xs rest, wfL xs = true → jsizeL xs ≤ fuel → xs ≠ .nil →
      parseArrItems fuel (renderL xs ++ ']' :: rest) = some (xs, rest))
    ∧ (∀ kvs rest, wfO kvs = true → jsizeO kvs ≤ fuel → kvs ≠ .nil →
      parseObjItems fuel (renderO kvs ++ '}' :: rest) = some (kvs, rest)) := by
  intro fuel
  induction fuel with
  | zero =>
    refine ⟨fun v rest _ hsz _ => ?_, fun xs rest _ hsz hne => ?_,
      fun kvs rest _ hsz hne => ?_⟩
    · have := jsizeV_pos v; omega
    · have := jsizeL_pos hne; omega
    · have := jsizeO_pos hne; omega
  | succ f ih =>
    obtain ⟨ihV, ihA, ihO⟩ := ih
    refine ⟨fun v rest hwf hsz hrest => ?_, fun xs rest hwf hsz hne => ?_,
      fun kvs rest hwf hsz hne => ?_⟩
    · -- parseVal
      cases v with
      | null =>
        show parseVal (f+1) ('n' :: 'u' :: 'l' :: 'l' :: rest) = some (.null, rest)
        unfold parseVal
        rw [skipWs_cons _ (by decide)]
        dsimp only
        rw [if_neg (by decide), if_neg (by decide), if_neg (by decide), if_neg (by decide),
          if_neg (by decide), if_pos rfl, if_pos (by simp [List.isPrefixOf])]
        rfl
      | bool b =>
        cases b with
        | true =>
          show parseVal (f+1) ('t' :: 'r' :: 'u' :: 'e' :: rest) = some (.bool true, rest)
          unfold parseVal
          rw [skipWs_cons _ (by decide)]
          dsimp only
          rw [if_neg (by decide), if_neg (by decide), if_neg (by decide), if_pos rfl,
            if_pos (by simp [List.isPrefixOf])]
          rfl
        | false =>
          show parseVal (f+1) ('f' :: 'a' :: 'l' :: 's' :: 'e' :: rest)
            = some (.bool false, rest)
          unfold parseVal
          rw [skipWs_cons _ (by decide)]
          dsimp only
          rw [if_neg (by decide), if_neg (by decide), if_neg (by decide), if_neg (by decide),
            if_pos rfl, if_pos (by simp [List.isPrefixOf])]
          rfl
      | num i =>
        cases i with
        | ofNat m =>
          rcases natToCharsAux_head (m+1) m (Nat.lt_succ_self m) with ⟨d, r, hr, hshape⟩
          obtain ⟨hdig, htn, hws, hrb, hcb, hlb, hlsq, hq, ht2, hf2, hn2, hm2⟩ :=
            digitChar_facts d hr
          have hsh2 : renderV (.num (Int.ofNat m)) = digitChar d :: r := hshape
          rw [hsh2, List.cons_append]
          unfold parseVal
          rw [skipWs_cons _ hws]
          dsimp only
          rw [if_neg hlb, if_neg hlsq, if_neg hq, if_neg ht2, if_neg hf2, if_neg hn2,
            if_neg hm2, if_pos hdig]
          rw [show digitChar d :: (r ++ rest) = (digitChar d :: r) ++ rest from rfl]
          rw [show (digitChar d :: r) = natToChars m from hshape.symm]
          rw [parseNatChars_round m hrest]
          rfl
        | negSucc m =>
          show parseVal (f+1) ('-' :: (natToChars (m+1) ++ rest))
            = some (.num (Int.negSucc m), rest)
          unfold parseVal
          rw [skipWs_cons _ (by decide)]
          dsimp only
          rw [if_neg (by decide), if_neg (by decide), if_neg (by decide), if_neg (by decide),
            if_neg (by decide), if_neg (by decide), if_pos rfl]
          rw [parseNatChars_round (m+1) hrest]
          dsimp only
          rw [Int.negSucc_eq]
          norm_num
      | str s =>
        have hk : ∀ c ∈ s.data, 32 ≤ c.toNat := by
          have h2 : s.data.all (fun c => 32 ≤ c.toNat) = true := hwf
          simpa [List.all_eq_true] using h2
        show parseVal (f+1) ('\"' :: ((escapeChars s.data ++ ['\"']) ++ rest))
          = some (.str s, rest)
        unfold parseVal
        rw [skipWs_cons _ (by decide)]
        dsimp only
        rw [if_neg (by decide), if_neg (by decide), if_pos rfl]
        rw [show (escapeChars s.data ++ ['\"']) ++ rest = escapeChars s.data ++ '\"' :: rest by
          rw [List.append_assoc]; rfl]
        rw [parseStr_round s.data hk rest]
      | arr xs =>
        cases xs with
        | nil =>
          show parseVal (f+1) ('[' :: ']' :: rest) = some (.arr .nil, rest)
          unfold parseVal
          rw [skipWs_cons _ (by decide)]
          dsimp only
          rw [if_neg (by decide), if_pos rfl]
          rw [skipWs_cons _ (by decide)]
          rfl
        | cons w tl =>
          obtain ⟨c, rv, hws, hrb, hL⟩ : ∃ c rv, c.isWhitespace = false ∧ c ≠ ']'
              ∧ renderL (.cons w tl) = c :: rv := by
            obtain ⟨c, rv, hrv, hws2, hrb2⟩ := renderV_cons w
            cases tl with
            | nil => exact ⟨c, rv, hws2, hrb2, hrv⟩
            | cons u t2 =>
              refine ⟨c, rv ++ ',' :: renderL (.cons u t2), hws2, hrb2, ?_⟩
              show renderV w ++ ',' :: renderL (.cons u t2) = _
              rw [hrv]
              rfl
          rw [show renderV (.arr (.cons w tl)) ++ rest
              = '[' :: (renderL (.cons w tl) ++ ']' :: rest) by
            show '[' :: ((renderL (.cons w tl) ++ [']']) ++ rest) = _
            rw [List.append_assoc]
            rfl]
          unfold parseVal
          rw [skipWs_cons _ (by decide)]
          dsimp only
          rw [if_neg (by decide), if_pos rfl]
          rw [hL, List.cons_append, skipWs_cons _ hws]
          have hfl : jsizeL (.cons w tl) ≤ f := by
            have h2 : jsizeV (.arr (.cons w tl)) = 1 + jsizeL (.cons w tl) := rfl
            omega
          dsimp only
          rw [if_neg hrb, ← List.cons_append, ← hL]
          rw [ihA (.cons w tl) rest hwf hfl (fun h => JsonList.noConfusion h)]
      | obj kvs =>
        cases kvs with
        | nil =>
          show parseVal (f+1) ('{' :: '}' :: rest) = some (.obj .nil, rest)
          unfold parseVal
          rw [skipWs_cons _ (by decide)]
          dsimp only
          rw [if_pos rfl]
          rw [skipWs_cons _ (by decide)]
          rfl
        | cons k w tl =>
          obtain ⟨m, hO⟩ := renderO_head k w tl
          rw [show renderV (.obj (.cons k w tl)) ++ rest
              = '{' :: (renderO (.cons k w tl) ++ '}' :: rest) by
            show '{' :: ((renderO (.cons k w tl) ++ ['}']) ++ rest) = _
            rw [List.append_assoc]
            rfl]
          unfold parseVal
          rw [skipWs_cons _ (by decide)]
          dsimp only
          rw [if_pos rfl]
          rw [hO, List.cons_append, skipWs_cons _ (by decide)]
          have hfl : jsizeO (.cons k w tl) ≤ f := by
            have h2 : jsizeV (.obj (.cons k w tl)) = 1 + jsizeO (.cons k w tl) := rfl
            omega
          dsimp only
          rw [if_neg (by decide), ← List.cons_append, ← hO]
          rw [ihO (.cons k w tl) rest hwf hfl (fun h => JsonObj.noConfusion h)]
    · -- parseArrItems
      cases xs with
      | nil => exact absurd rfl hne
      | cons v tl =>
        obtain ⟨hwfv, hwft⟩ : wfV v = true ∧ wfL tl = true := by
          have h2 : (wfV v && wfL tl) = true := hwf
          exact ⟨((Bool.and_eq_true _ _).mp h2).1, ((Bool.and_eq_true _ _).mp h2).2⟩
        have hszl : jsizeL (.cons v tl) = 1 + jsizeV v + jsizeL tl := rfl
        unfold parseArrItems
        cases tl with
        | nil =>
          rw [show renderL (.cons v .nil) ++ ']' :: rest = renderV v ++ ']' :: rest from rfl]
          rw [ihV v (']' :: rest) hwfv (by omega) rfl]
          dsimp only
          rw [skipWs_cons _ (by decide)]
          dsimp only
          rw [if_neg (by decide), if_pos rfl]
        | cons u t2 =>
          rw [show renderL (.cons v (.cons u t2)) ++ ']' :: rest
              = renderV v ++ ',' :: (renderL (.cons u t2) ++ ']' :: rest) by
            show (renderV v ++ ',' :: renderL (.cons u t2)) ++ ']' :: rest = _
            rw [List.append_assoc]
            rfl]
          rw [ihV v (',' :: (renderL (.cons u t2) ++ ']' :: rest)) hwfv (by omega) rfl]
          dsimp only
          rw [skipWs_cons _ (by decide)]
          dsimp only
          rw [if_pos rfl]
          have hszt : jsizeL (.cons u t2) ≤ f := by
            have h2 : jsizeL (.cons u t2) = 1 + jsizeV u + jsizeL t2 := rfl
            omega
          rw [ihA (.cons u t2) rest hwft hszt (fun h => JsonList.noConfusion h)]
    · -- parseObjItems
      cases kvs with
      | nil => exact absurd rfl hne
      | cons k v tl =>
        obtain ⟨hkk, hwfv, hwft⟩ : k.data.all (fun c => 32 ≤ c.toNat) = true
            ∧ wfV v = true ∧ wfO tl = true := by
          have h1 : ((k.data.all (fun c => 32 ≤ c.toNat) && wfV v) && wfO tl) = true := hwf
          have h2 := (Bool.and_eq_true _ _).mp h1
          have h3 := (Bool.and_eq_true _ _).mp h2.1
          exact ⟨h3.1, h3.2, h2.2⟩
        have hk : ∀ c ∈ k.data, 32 ≤ c.toNat := by
          simpa [List.all_eq_true] using hkk
        have hszo : jsizeO (.cons k v tl) = 1 + jsizeV v + jsizeO tl := rfl
        unfold parseObjItems
        cases tl with
        | nil =>
          rw [show renderO (.cons k v .nil) ++ '}' :: rest
              = '\"' :: (escapeChars k.data ++ '\"' :: ':' :: (renderV v ++ '}' :: rest)) by
            show '\"' :: ((escapeChars k.data ++ '\"' :: ':' :: renderV v) ++ '}' :: rest) = _
            rw [List.append_assoc]
            rfl]
          rw [skipWs_cons _ (by decide)]
          dsimp only
          rw [if_pos rfl]
          rw [parseStr_round k.data hk (':' :: (renderV v ++ '}' :: rest))]
          dsimp only
          rw [skipWs_cons _ (by decide)]
          dsimp only
          rw [if_pos rfl]
          rw [ihV v ('}' :: rest) hwfv (by omega) rfl]
          dsimp only
          rw [skipWs_cons _ (by decide)]
          dsimp only
          rw [if_neg (by decide), if_pos rfl]
        | cons k2 w t2 =>
          rw [show renderO (.cons k v (.cons k2 w t2)) ++ '}' :: rest
              = '\"' :: (escapeChars k.data ++ '\"' :: ':' ::
                  (renderV v ++ ',' :: (renderO (.cons k2 w t2) ++ '}' :: rest))) by
            show ('\"' :: (escapeChars k.data ++ '\"' :: ':' :: renderV v)
                ++ ',' :: renderO (.cons k2 w t2)) ++ '}' :: rest = _
            simp only [List.cons_append, List.append_assoc]]
          rw [skipWs_cons _ (by decide)]
          dsimp only
          rw [if_pos rfl]
          rw [parseStr_round k.data hk
            (':' :: (renderV v ++ ',' :: (renderO (.cons k2 w t2) ++ '}' :: rest)))]
          dsimp only
          rw [skipWs_cons _ (by decide)]
          dsimp only
          rw [if_pos rfl]
          rw [ihV v (',' :: (renderO (.cons k2 w t2) ++ '}' :: rest)) hwfv (by omega) rfl]
          dsimp only
          rw [skipWs_cons _ (by decide)]
          dsimp only
          rw [if_pos rfl]
          have hszt : jsizeO (.cons k2 w t2) ≤ f := by
            have h2 : jsizeO (.cons k2 w t2) = 1 + jsizeV w + jsizeO t2 := rfl
            omega
          rw [ihO (.cons k2 w t2) rest hwft hszt (fun h => JsonObj.noConfusion h)]


lemma renderV_obj_shape (kvs : JsonObj) :
    ∃ m, renderV (.obj kvs) = '{' :: (m ++ ['}']) := by
  cases kvs with
  | nil => exact ⟨[], rfl⟩
  | cons k v tl => exact ⟨renderO (.cons k v tl), rfl⟩

lemma parseJsonText_mk (l : List Char) :
    parseJsonText (String.mk l)
      = match parseVal (l.length + 1) l with
        | some (v, r) =>
          if skipWs r = [] then .ok v else .error "unexpected trailing characters"
        | none => .error "could not parse JSON" := rfl

lemma parseJsonText_render (v : Json) (h : wfV v = true) :
    parseJsonText (renderJson v) = .ok v := by
  unfold renderJson
  rw [parseJsonText_mk]
  have hsz : jsizeV v ≤ (renderV v).length + 1 :=
    le_trans (jsizeV_le v) (Nat.le_succ _)
  have hp := (parse_round ((renderV v).length + 1)).1 v [] h hsz rfl
  rw [List.append_nil] at hp
  rw [hp]
  rfl

lemma fence_data : "```".data = [btick, btick, btick] := by decide

def hasFence : List Char → Bool
  | [] => false
  | c :: r => ("```".data.isPrefixOf (c :: r)) || hasFence r

lemma hasFence_cons (c : Char) (r : List Char) :
    hasFence (c :: r) = ("```".data.isPrefixOf (c :: r) || hasFence r) := rfl

lemma isPrefixOf_fence_pad (c : Char) (r t : List Char) :
    "```".data.isPrefixOf (c :: (r ++ btick :: btick :: btick :: t))
      = "```".data.isPrefixOf (c :: (r ++ [btick, btick])) := by
  rw [fence_data]
  cases r with
  | nil => simp [List.isPrefixOf]
  | cons d r2 =>
    cases r2 with
    | nil => simp [List.isPrefixOf]
    | cons e r3 => simp [List.isPrefixOf]

lemma splitOnFirst_fence : ∀ (l t : List Char),
    hasFence (l ++ [btick, btick]) = false →
    splitOnFirst "```".data (l ++ btick :: btick :: btick :: t) = some (l, t) := by
  intro l
  induction l with
  | nil =>
    intro t h
    show splitOnFirst "```".data (btick :: btick :: btick :: t) = some ([], t)
    unfold splitOnFirst
    rw [if_pos (by rw [fence_data]; simp [List.isPrefixOf])]
    rw [fence_data]
    simp

  | cons c r ih =>
    intro t h
    rw [List.cons_append] at h ⊢
    rw [hasFence_cons] at h
    have h2 := (Bool.or_eq_false_iff.mp h)
    have hpref : "```".data.isPrefixOf (c :: (r ++ btick :: btick :: btick :: t)) = false := by
      rw [isPrefixOf_fence_pad]
      exact h2.1
    unfold splitOnFirst
    rw [if_neg (by simp [hpref])]
    rw [ih t h2.2]

lemma hasFence_append_two : ∀ l : List Char, (∀ c ∈ l, c ≠ btick) →
    hasFence (l ++ [btick, btick]) = false := by
  intro l
  induction l with
  | nil => decide
  | cons c r ih =>
    intro h
    rw [List.cons_append, hasFence_cons]
    have hc : c ≠ btick := h c (List.mem_cons_self _ _)
    have h1 : "```".data.isPrefixOf (c :: (r ++ [btick, btick])) = false := by
      rw [fence_data]
      simp [List.isPrefixOf, Ne.symm hc]
    rw [h1, ih (fun d hd => h d (List.mem_cons_of_mem _ hd))]
    rfl


lemma trimChars_wrap (m : List Char) :
    trimChars (('\n' :: ('{' :: (m ++ ['}']))) ++ ['\n']) = '{' :: (m ++ ['}']) := by
  unfold trimChars
  rw [show (('\n' :: ('{' :: (m ++ ['}']))) ++ ['\n'])
      = '\n' :: '{' :: (m ++ ['}', '\n']) by simp]
  rw [List.dropWhile_cons, if_pos (by decide), List.dropWhile_cons, if_neg (by decide)]
  rw [show ('{' :: (m ++ ['}', '\n'])).reverse = '\n' :: '}' :: (m.reverse ++ ['{']) by simp]
  rw [List.dropWhile_cons, if_pos (by decide), List.dropWhile_cons, if_neg (by decide)]
  rw [show ('}' :: (m.reverse ++ ['{'])).reverse = '{' :: (m ++ ['}']) by simp]

lemma contains_append_rcb (m : List Char) : (m ++ ['}']).contains '}' = true := by
  simp

lemma braceSlice_obj (kvs : JsonObj) :
    braceSlice (renderJson (.obj kvs)) = renderJson (.obj kvs) := by
  obtain ⟨m, hm⟩ := renderV_obj_shape kvs
  unfold braceSlice renderJson braceSliceChars
  rw [show (String.mk (renderV (.obj kvs))).data = renderV (.obj kvs) from rfl, hm]
  rw [show List.dropWhile (fun c => c != '{') ('{' :: (m ++ ['}'])) = '{' :: (m ++ ['}'])
    from by rw [List.dropWhile_cons, if_neg (by decide)]]
  dsimp only
  rw [if_pos (contains_append_rcb m)]
  rw [show ('{' :: (m ++ ['}'])).reverse = '}' :: (m.reverse ++ ['{']) by simp]
  rw [List.dropWhile_cons, if_neg (by decide)]
  rw [show ('}' :: (m.reverse ++ ['{'])).reverse = '{' :: (m ++ ['}']) by simp]

lemma cleanJson_fenced (kvs : JsonObj)
    (hnb : ∀ c ∈ renderV (.obj kvs), c ≠ btick) :
    cleanJsonResponse ("```json\n" ++ renderJson (.obj kvs) ++ "\n```")
      = renderJson (.obj kvs) := by
  obtain ⟨m, hm⟩ := renderV_obj_shape kvs
  unfold cleanJsonResponse
  rw [show ("```json\n" ++ renderJson (.obj kvs) ++ "\n```").data
      = [] ++ btick :: btick :: btick ::
          ('j' :: 's' :: 'o' :: 'n' :: '\n' :: (renderV (.obj kvs) ++ '\n' :: [btick, btick, btick]))
    from by
      rw [data_append, data_append]
      rw [show ("```json\n").data = [btick, btick, btick, 'j', 's', 'o', 'n', '\n'] from by decide]
      rw [show ("\n```").data = ['\n', btick, btick, btick] from by decide]
      rw [show (renderJson (.obj kvs)).data = renderV (.obj kvs) from rfl]
      simp]
  rw [splitOnFirst_fence [] _ (by decide)]
  dsimp only
  rw [show stripTag ('j' :: 's' :: 'o' :: 'n' :: '\n'
        :: (renderV (.obj kvs) ++ '\n' :: [btick, btick, btick]))
      = '\n' :: (renderV (.obj kvs) ++ '\n' :: [btick, btick, btick]) from by
    unfold stripTag
    rw [if_pos (by simp [List.isPrefixOf])]
    rfl]
  rw [show '\n' :: (renderV (.obj kvs) ++ '\n' :: [btick, btick, btick])
      = (('\n' :: renderV (.obj kvs)) ++ ['\n']) ++ btick :: btick :: btick :: [] by simp]
  rw [splitOnFirst_fence (('\n' :: renderV (.obj kvs)) ++ ['\n']) []
    (hasFence_append_two _ (by
      intro c hc
      rcases List.mem_append.mp hc with h2 | h2
      · rcases List.mem_cons.mp h2 with h3 | h3
        · rw [h3]; decide
        · exact hnb c h3
      · rw [List.mem_singleton.mp h2]; decide))]
  dsimp only
  rw [hm]
  rw [trimChars_wrap m]
  rw [← hm]
  rfl

def btObj : JsonObj := .cons "a" (.str "x```y") .nil

def wObj : JsonObj :=
  .cons "questions" (.arr (.cons (.str "What is recursion?") .nil)) .nil


/-- C8 (amended): for every well-formed JSON object (no raw control
characters in strings) whose canonical serialization contains no backtick
character, wrapping the serialized text in a `json`-tagged fenced code
block and running the extraction front end (`cleanJsonResponse`, the
first-`\x7b`-to-last-`\x7d` slice, then the direct `JSON.parse`) recovers
exactly that object on the first parse attempt.  The no-backtick proviso is
necessary: the lazy fence regex ends the captured block at the first
` ``` ` occurring *inside* a string value (see the counterexample). -/
theorem c8_extraction_roundtrip (kvs : JsonObj) (hwf : wfO kvs = true)
    (hnb : ∀ c ∈ renderV (.obj kvs), c ≠ btick) :
    extractFirstParse ("```json\n" ++ renderJson (.obj kvs) ++ "\n```")
      = .ok (.obj kvs) := by
  unfold extractFirstParse
  rw [cleanJson_fenced kvs hnb, braceSlice_obj kvs]
  exact parseJsonText_render (.obj kvs) hwf

/-- C8 counterexample: a valid JSON object containing the three-character
string ` ``` ` inside a value breaks the round trip — the fenced capture
ends early and the first direct parse fails. -/
theorem c8_counterexample :
    wfO btObj = true
    ∧ extractFirstParse ("```json\n" ++ renderJson (.obj btObj) ++ "\n```")
      = .error "could not parse JSON" := ⟨by decide, rfl⟩

/-- C8 witness: the amended theorem at a concrete one-question payload. -/
theorem c8_extraction_roundtrip_witness :
    extractFirstParse ("```json\n" ++ renderJson (.obj wObj) ++ "\n```")
      = .ok (.obj wObj) :=
  c8_extraction_roundtrip wObj (by decide) (by decide)


end Ignitia
